import Mathlib

set_option maxRecDepth 4000

/-!
Verification of the natural-language specification of the `webscraper`
repository (files `scrape_the_web.py` and `newsasker.py`) against a shallow
embedding of its code in Lean 4.

Python strings are modelled as `List Char`.  The URL-handling functions of
`urllib.parse` (CPython 3.11: `urlsplit`, `urlparse`, `urlunsplit`,
`urlunparse`, `_splitnetloc`, `_splitparams`) are embedded faithfully for the
inputs this program can produce, with two documented simplifications, both
irrelevant to every claim below:
* `_check_bracketed_host` (CPython >= 3.11 validation of `[...]` IPv6/IPvFuture
  hosts via the `ipaddress` module) is not modelled; the bracket-mismatch
  `ValueError` ("Invalid IPv6 URL"), present in every CPython version, is.
* `_checknetloc` (the NFKC-normalization check, a no-op for all-ASCII netlocs)
  is not modelled.

`requests`, `BeautifulSoup` and the interactive prompt layer are external
collaborators (spec section 1); the network fetch plus HTML-to-text extraction
of `scrapeweb` (lines 92-100) is abstracted as an oracle `FetchResult` whose
success value is the extracted text `text_content` as of line 100, and the
remote news-service response of `fetch_and_display_news` is abstracted as a
`NewsResp`.  Everything downstream of those lines is modelled from the source.
Fallible Python code is embedded in `Except PyErr`; an uncaught Python
exception is a `.error` result.
-/

/-- Python `str` modelled as a list of characters. -/
abbrev PyStr := List Char

instance {ε α : Type} [DecidableEq ε] [DecidableEq α] : DecidableEq (Except ε α) := fun x y =>
  match x, y with
  | .ok a, .ok b => decidable_of_iff (a = b) (by simp)
  | .ok _, .error _ => isFalse (by simp)
  | .error _, .ok _ => isFalse (by simp)
  | .error e, .error f => decidable_of_iff (e = f) (by simp)

/-- Convenience conversion from a Lean string literal. -/
def pyStr (s : String) : PyStr := s.data

/-- A Python exception escaping the modelled code (only `ValueError` arises). -/
inductive PyErr where
  | valueError
deriving Repr, DecidableEq

/-- Python whitespace as stripped by `str.strip()` (Latin-1 portion of the
Unicode whitespace table: TAB..CR, FS..US, space, NEL, NBSP; space code points
above U+00FF are omitted, none of which any claim exercises). -/
def isPySpace (c : Char) : Bool :=
  decide ((9 ≤ c.toNat ∧ c.toNat ≤ 13) ∨ (28 ≤ c.toNat ∧ c.toNat ≤ 32)
    ∨ c.toNat = 0x85 ∨ c.toNat = 0xA0)

/-- Python `str.strip()` with no argument (scrape_the_web.py line 24). -/
def pyStrip (s : PyStr) : PyStr :=
  ((s.dropWhile isPySpace).reverse.dropWhile isPySpace).reverse

/-- `startsWithL pat s` is true iff `pat` is an initial run of `s`
(Python `str.startswith`). -/
def startsWithL : PyStr → PyStr → Bool
  | [], _ => true
  | _ :: _, [] => false
  | a :: as, b :: bs => a == b && startsWithL as bs

/-! ## Model of `urllib.parse` (CPython 3.11) -/

/-- `_WHATWG_C0_CONTROL_OR_SPACE` membership: code points 0x00..0x20. -/
def isC0OrSpace (c : Char) : Bool := decide (c.toNat ≤ 32)

/-- `_UNSAFE_URL_BYTES_TO_REMOVE` membership: tab, CR, LF. -/
def isUnsafeUrlByte (c : Char) : Bool := c == '\t' || c == '\r' || c == '\n'

/-- Characters kept by the unsafe-byte removal. -/
def keepByte (c : Char) : Bool := !(isUnsafeUrlByte c)

/-- The `url.lstrip(_WHATWG_C0_CONTROL_OR_SPACE)` plus unsafe-byte removal at
the top of `urlsplit`. -/
def preClean (s : PyStr) : PyStr :=
  (s.dropWhile isC0OrSpace).filter keepByte

/-- `scheme_chars` membership: ASCII letters, digits, `+`, `-`, `.`. -/
def isSchemeChar (c : Char) : Bool :=
  c.isAlpha || c.isDigit || c == '+' || c == '-' || c == '.'

/-- The scheme-extraction step of `urlsplit`: if the text before the first `:`
is a non-empty run of scheme characters starting with an ASCII letter, it is
the (lowercased) scheme; otherwise the scheme is empty and the URL is
unchanged. -/
def schemePhase (u : PyStr) : PyStr × PyStr :=
  if ':' ∈ u then
    if (u.takeWhile (fun c => c != ':')).head?.any Char.isAlpha
        && (u.takeWhile (fun c => c != ':')).all isSchemeChar then
      ((u.takeWhile (fun c => c != ':')).map Char.toLower, (u.dropWhile (fun c => c != ':')).tail)
    else ([], u)
  else ([], u)

/-- Netloc delimiters of `_splitnetloc`. -/
def isNetlocDelim (c : Char) : Bool := c == '/' || c == '?' || c == '#'

/-- The bracket-mismatch test of `urlsplit` (raises "Invalid IPv6 URL"). -/
def bracketsMismatch (n : PyStr) : Bool :=
  (decide ('[' ∈ n)) != (decide (']' ∈ n))

/-- The netloc-extraction step of `urlsplit`: when the URL (after the scheme)
starts with `//`, the netloc runs to the first `/`, `?` or `#`; a bracket
mismatch raises `ValueError`. -/
def netlocPhase (u : PyStr) : Except PyErr (PyStr × PyStr) :=
  if u.take 2 = ['/', '/'] then
    if bracketsMismatch ((u.drop 2).takeWhile (fun c => !(isNetlocDelim c))) then
      .error .valueError
    else
      .ok ((u.drop 2).takeWhile (fun c => !(isNetlocDelim c)),
           (u.drop 2).dropWhile (fun c => !(isNetlocDelim c)))
  else .ok ([], u)

/-- Python `url.split(t, 1)` when the split actually happens, as used by
`urlsplit` for `#` and `?`: everything before the first `t`, and everything
after it; when `t` does not occur, `(u, [])` (the callers test membership
first, matching the `if t in url` guards in `urlsplit`). -/
def cutFirst (t : Char) (u : PyStr) : PyStr × PyStr :=
  if t ∈ u then (u.takeWhile (fun c => c != t), (u.dropWhile (fun c => c != t)).tail)
  else (u, [])

/-- Result of `urlsplit`: the 5-tuple of components. -/
structure SplitParts where
  scheme : PyStr
  netloc : PyStr
  path : PyStr
  query : PyStr
  fragment : PyStr
deriving Repr, DecidableEq

/-- `urllib.parse.urlsplit` (default arguments: empty default scheme,
`allow_fragments=True`). -/
def urlsplitE (s : PyStr) : Except PyErr SplitParts :=
  match netlocPhase (schemePhase (preClean s)).2 with
  | .error e => .error e
  | .ok nlr =>
    .ok ⟨(schemePhase (preClean s)).1, nlr.1,
         (cutFirst '?' (cutFirst '#' nlr.2).1).1,
         (cutFirst '?' (cutFirst '#' nlr.2).1).2,
         (cutFirst '#' nlr.2).2⟩

/-- `uses_params` (CPython 3.11); note `ftps` is absent. -/
def usesParams : List PyStr :=
  [pyStr (""), pyStr ("ftp"), pyStr ("hdl"), pyStr ("prospero"), pyStr ("http"),
   pyStr ("imap"), pyStr ("https"), pyStr ("shttp"), pyStr ("rtsp"),
   pyStr ("rtsps"), pyStr ("rtspu"), pyStr ("sip"), pyStr ("sips"),
   pyStr ("mms"), pyStr ("sftp"), pyStr ("tel")]

/-- `uses_netloc` (CPython 3.11); note `ftps` is absent here too. -/
def usesNetloc : List PyStr :=
  [pyStr (""), pyStr ("ftp"), pyStr ("http"), pyStr ("gopher"), pyStr ("nntp"),
   pyStr ("telnet"), pyStr ("imap"), pyStr ("wais"), pyStr ("file"),
   pyStr ("mms"), pyStr ("https"), pyStr ("shttp"), pyStr ("snews"),
   pyStr ("prospero"), pyStr ("rtsp"), pyStr ("rtsps"), pyStr ("rtspu"),
   pyStr ("rsync"), pyStr ("svn"), pyStr ("svn+ssh"), pyStr ("sftp"),
   pyStr ("nfs"), pyStr ("git"), pyStr ("git+ssh"), pyStr ("ws"), pyStr ("wss")]

/-- `_splitparams`, modelled for the inputs `urlparse` feeds it (it is only
called when `;` occurs in the path; for a `;`-free path the model returns the
path unchanged where CPython's unguarded slice would misbehave, a case that
cannot arise from `urlparse`). -/
def afterLastSlash (u : PyStr) : PyStr := (u.reverse.takeWhile (fun c => c != '/')).reverse

def beforeLastSlash (u : PyStr) : PyStr :=
  ((u.reverse.dropWhile (fun c => c != '/')).tail).reverse

def pySplitParams (url : PyStr) : PyStr × PyStr :=
  if '/' ∈ url then
    if ';' ∈ afterLastSlash url then
      (beforeLastSlash url ++ '/' :: (afterLastSlash url).takeWhile (fun c => c != ';'),
       ((afterLastSlash url).dropWhile (fun c => c != ';')).tail)
    else (url, [])
  else (url.takeWhile (fun c => c != ';'), (url.dropWhile (fun c => c != ';')).tail)

/-- The params-splitting step of `urlparse`. -/
def paramsPhase (sch pp : PyStr) : PyStr × PyStr :=
  if sch ∈ usesParams ∧ ';' ∈ pp then pySplitParams pp else (pp, [])

/-- Result of `urlparse`: the 6-tuple of components. -/
structure UrlParts where
  scheme : PyStr
  netloc : PyStr
  path : PyStr
  params : PyStr
  query : PyStr
  fragment : PyStr
deriving Repr, DecidableEq

/-- `urllib.parse.urlparse` (default arguments). -/
def urlparseE (s : PyStr) : Except PyErr UrlParts :=
  match urlsplitE s with
  | .error e => .error e
  | .ok sp =>
    .ok ⟨sp.scheme, sp.netloc, (paramsPhase sp.scheme sp.path).1,
         (paramsPhase sp.scheme sp.path).2, sp.query, sp.fragment⟩

/-- The netloc-joining step of `urlunsplit` (`p.path` plays the role of the
`url` variable there). -/
def joinNetloc (p : SplitParts) : PyStr :=
  if p.netloc ≠ [] ∨ (p.scheme ≠ [] ∧ p.scheme ∈ usesNetloc ∧ p.path.take 2 ≠ ['/', '/']) then
    '/' :: '/' :: (p.netloc ++
      (if p.path ≠ [] ∧ p.path.take 1 ≠ ['/'] then '/' :: p.path else p.path))
  else p.path

/-- `urllib.parse.urlunsplit` (the sequential `+` of the CPython code is
rendered with an equivalent association). -/
def urlunsplit (p : SplitParts) : PyStr :=
  (if p.scheme ≠ [] then p.scheme ++ ':' :: joinNetloc p else joinNetloc p)
    ++ (if p.query ≠ [] then '?' :: p.query else [])
    ++ (if p.fragment ≠ [] then '#' :: p.fragment else [])

/-- The path-params rejoining of `urlunparse`. -/
def joinParams (pa pr : PyStr) : PyStr := if pr ≠ [] then pa ++ ';' :: pr else pa

/-- `urllib.parse.urlunparse`. -/
def urlunparse6 (p : UrlParts) : PyStr :=
  urlunsplit ⟨p.scheme, p.netloc, joinParams p.path p.params, p.query, p.fragment⟩

/-! ## Model of `_autocomplete_url` (scrape_the_web.py lines 23-66) -/

/-- The four recognized scheme markers of line 28. -/
def recognizedSchemeMarks : List PyStr :=
  [pyStr ("http://"), pyStr ("https://"), pyStr ("ftp://"), pyStr ("ftps://")]

/-- `partial_url.startswith(("http://", "https://", "ftp://", "ftps://"))`. -/
def startsWithRecognized (s : PyStr) : Bool :=
  recognizedSchemeMarks.any (fun m => startsWithL m s)

/-- `partial_url.split('//', 1)[-1]` (line 34): the text after the first
occurrence of `//`, or the whole string when `//` does not occur. -/
def afterDoubleSlash : PyStr → Option PyStr
  | '/' :: '/' :: rest => some rest
  | _ :: rest => afterDoubleSlash rest
  | [] => none

/-- Lines 29-39: the branch for inputs that already carry a recognized scheme.
The `except ValueError` of line 38 catches parse failures. -/
def schemeBranch (p : PyStr) : PyStr :=
  match urlparseE p with
  | .error _ => pyStr ("https://") ++ p
  | .ok parsed =>
    if parsed.netloc ≠ [] then urlunparse6 parsed
    else
      let domainPart := (afterDoubleSlash p).getD p
      if domainPart = [] then pyStr ("https://") ++ domainPart
      else if '.' ∈ domainPart then pyStr ("https://") ++ domainPart
      else pyStr ("https://") ++ domainPart ++ pyStr (".com")

/-- Lines 41-66: the branch for inputs without a recognized scheme.  The
`urlparse` of line 41 is not guarded by any `try`, so a `ValueError` there
propagates. -/
def noSchemeBranch (p : PyStr) : Except PyErr PyStr :=
  match urlparseE ('/' :: '/' :: p) with
  | .error e => .error e
  | .ok parsed =>
  let netloc0 := parsed.netloc
  let path0 := parsed.path
  let nlPath :=
    if netloc0 = [] then
      let firstSegment := p.takeWhile (fun c => c != '/')
      let restPath : PyStr :=
        if '/' ∈ p then '/' :: ((p.dropWhile (fun c => c != '/')).tail) else []
      if firstSegment ≠ [] ∧ '.' ∈ firstSegment then (firstSegment, restPath)
      else if firstSegment ≠ [] then (firstSegment ++ pyStr (".com"), restPath)
      else (pyStr ("example.com"), path0)
    else (netloc0, path0)
  let path1 :=
    if nlPath.1 ≠ [] ∧ nlPath.2 ≠ [] ∧ nlPath.2.take 1 ≠ ['/'] then '/' :: nlPath.2
    else nlPath.2
  let path2 := if nlPath.1 ≠ [] ∧ path1 = [] then ['/'] else path1
  .ok (urlunparse6 ⟨pyStr ("https"), nlPath.1, path2, [], parsed.query, parsed.fragment⟩)

/-- `_autocomplete_url` (lines 23-66).  A `.error` result is a Python
exception escaping the function. -/
def autocomplete_url (partialUrl : PyStr) : Except PyErr PyStr :=
  let p := pyStrip partialUrl
  if p = [] then .ok []
  else if startsWithRecognized p then .ok (schemeBranch p)
  else noSchemeBranch p

/-! ## Model of `scrapeweb` (scrape_the_web.py lines 69-123) -/

/-- Outcome of the abstracted network fetch plus HTML-to-text extraction
(lines 92-100).  `success text` carries `text_content` as of line 100 (after
tag stripping, linearization and blank-line collapsing); the five error
constructors match the five `except` clauses of lines 112-121. -/
inductive FetchResult where
  | success (text : PyStr)
  | httpError (msg : PyStr)
  | connError (msg : PyStr)
  | timeoutErr (msg : PyStr)
  | requestErr (msg : PyStr)
  | otherErr (msg : PyStr)

/-- The JSON envelope returned by `scrapeweb`, as a record of the keys the
various `json.dumps` calls can emit (absent keys are `none`; the JSON-string
serialization itself is abstracted away). -/
structure Envelope where
  status : PyStr
  message : Option PyStr := none
  original_url : Option PyStr := none
  scraped_url : Option PyStr := none
  attempted_url : Option PyStr := none
  content_preview : Option PyStr := none
  full_content : Option PyStr := none
deriving Repr, DecidableEq

/-- Result of one `scrapeweb` call: the envelope plus the URL actually handed
to `requests.get` (`none` when no network request was issued). -/
structure ScrapeOutcome where
  requested : Option PyStr
  envelope : Envelope
deriving Repr, DecidableEq

/-- Lines 102-104: truncation of the extracted text. -/
def truncateText (t : PyStr) : PyStr :=
  if t.length > 5000 then t.take 5000 ++ pyStr ("\n... (content truncated)") else t

/-- Line 108: the preview of the (already truncated) text. -/
def previewOf (t : PyStr) : PyStr :=
  t.take 200 ++ (if t.length > 200 then pyStr ("...") else [])

/-- `scrapeweb` (lines 69-123), parameterized by the fetch oracle.  The
`autocomplete_url` call of line 72 sits outside every `try`, so its model's
`.error` propagates. -/
def scrapeweb (url : PyStr) (fetch : PyStr → FetchResult) : Except PyErr ScrapeOutcome :=
  if url = [] ∨ pyStrip url = [] then
    .ok ⟨none, { status := pyStr ("error"),
                 message := some (pyStr ("URL cannot be empty.")) }⟩
  else
  match autocomplete_url url with
  | .error e => .error e
  | .ok completed =>
  match urlparseE completed with
  | .error _ =>
    .ok ⟨none, { status := pyStr ("error"), original_url := some url,
                 attempted_url := some completed,
                 message := some (pyStr ("The constructed URL is invalid and cannot be parsed.")) }⟩
  | .ok pf =>
    if pf.scheme = [] ∨ pf.netloc = [] then
      .ok ⟨none, { status := pyStr ("error"), original_url := some url,
                   attempted_url := some completed,
                   message := some (pyStr ("Failed to construct a valid, absolute URL. Scheme or domain is missing.")) }⟩
    else
      match fetch completed with
      | .success text =>
        .ok ⟨some completed,
          { status := pyStr ("success"), original_url := some url,
            scraped_url := some completed,
            content_preview := some (previewOf (truncateText text)),
            full_content := some (truncateText text) }⟩
      | .httpError m =>
        .ok ⟨some completed,
          { status := pyStr ("error"), original_url := some url,
            scraped_url := some completed,
            message := some (pyStr ("HTTP error occurred: ") ++ m) }⟩
      | .connError m =>
        .ok ⟨some completed,
          { status := pyStr ("error"), original_url := some url,
            scraped_url := some completed,
            message := some (pyStr ("Connection error: ") ++ m) }⟩
      | .timeoutErr m =>
        .ok ⟨some completed,
          { status := pyStr ("error"), original_url := some url,
            scraped_url := some completed,
            message := some (pyStr ("Request timed out: ") ++ m) }⟩
      | .requestErr m =>
        .ok ⟨some completed,
          { status := pyStr ("error"), original_url := some url,
            scraped_url := some completed,
            message := some (pyStr ("Error during web request: ") ++ m) }⟩
      | .otherErr m =>
        .ok ⟨some completed,
          { status := pyStr ("error"), original_url := some url,
            scraped_url := some completed,
            message := some (pyStr ("An unexpected error occurred: ") ++ m) }⟩

/-! ## Model of `fetch_and_display_news` (newsasker.py) -/

/-- The decimal value of a Unicode decimal digit (category Nd), as accepted by
Python `int()`: the table is abridged to the blocks the development exercises
(ASCII, Arabic-Indic, Extended Arabic-Indic, Devanagari, fullwidth). -/
def decDigitVal (c : Char) : Option Nat :=
  if 0x30 ≤ c.toNat ∧ c.toNat ≤ 0x39 then some (c.toNat - 0x30)
  else if 0x660 ≤ c.toNat ∧ c.toNat ≤ 0x669 then some (c.toNat - 0x660)
  else if 0x6F0 ≤ c.toNat ∧ c.toNat ≤ 0x6F9 then some (c.toNat - 0x6F0)
  else if 0x966 ≤ c.toNat ∧ c.toNat ≤ 0x96F then some (c.toNat - 0x966)
  else if 0xFF10 ≤ c.toNat ∧ c.toNat ≤ 0xFF19 then some (c.toNat - 0xFF10)
  else none

/-- Characters with Unicode property Numeric_Type=Digit that are not decimal
digits: `str.isdigit()` accepts them but `int()` rejects them (abridged to the
Latin-1 and superscript code points). -/
def isDigitOnlyChar (c : Char) : Bool :=
  c.toNat = 0xB2 || c.toNat = 0xB3 || c.toNat = 0xB9 || c.toNat = 0x2070 ||
    (decide (0x2074 ≤ c.toNat ∧ c.toNat ≤ 0x2079))

/-- Python `str.isdigit()` on a single character. -/
def pyIsDigitChar (c : Char) : Bool := (decDigitVal c).isSome || isDigitOnlyChar c

/-- Python `str.isdigit()`: false on the empty string, else all characters. -/
def pyStrIsDigit (s : PyStr) : Bool := !s.isEmpty && s.all pyIsDigitChar

/-- The base-10 value of a string of decimal digits. -/
def decValue (s : PyStr) : Nat :=
  s.foldl (fun acc c => 10 * acc + (decDigitVal c).getD 0) 0

/-- Python `int(s)` restricted to the context of newsasker.py (lines 53 and
55), where `s.isdigit()` already holds: it succeeds with the base-10 value
when every character is a decimal digit, and raises `ValueError` otherwise
(e.g. on superscript digits, which satisfy `isdigit` but not `int`). -/
def pyIntOfDigits (s : PyStr) : Except PyErr Int :=
  if s ≠ [] ∧ s.all (fun c => (decDigitVal c).isSome) then .ok (Int.ofNat (decValue s))
  else .error .valueError

/-- The page-size validator of line 53:
`lambda val: val.isdigit() and 1 <= int(val) <= 100`.  `and` short-circuits,
so `int` is only evaluated (and can only raise) when `isdigit` holds. -/
def pageSizeValidate (val : PyStr) : Except PyErr Bool :=
  if pyStrIsDigit val then
    match pyIntOfDigits val with
    | .error e => .error e
    | .ok n => .ok (decide (1 ≤ n) && decide (n ≤ 100))
  else .ok false

/-- A query-parameter value: Python `str` or `int`. -/
inductive PVal where
  | str (v : PyStr)
  | int (v : Int)
deriving Repr, DecidableEq

/-- The strings collected from the interactive prompts, in prompt order.
`pageSize` is whatever string the re-prompting page-size prompt finally
accepted; `endpoint` comes from a two-choice menu. -/
structure NewsInputs where
  endpoint : PyStr
  apiKey : PyStr
  country : PyStr
  category : PyStr
  query : PyStr
  fromDate : PyStr
  pageSize : PyStr

/-- One article object of the remote response, projected to the two fields the
code reads with `.get` (absent fields are `none`). -/
structure ArticleRec where
  title : Option PyStr
  url : Option PyStr
deriving Repr, DecidableEq

/-- The parsed JSON body of a completed request, reduced to the three fields
the code reads with `.get`. -/
structure RemoteData where
  status : Option PyStr
  message : Option PyStr
  articles : Option (List ArticleRec)

/-- Outcome of the abstracted `requests.get` / `raise_for_status` / `.json()`
sequence (lines 60-62): either a parsed body, or any exception, which line 63
catches with message text `e`. -/
inductive NewsResp where
  | httpOk (data : RemoteData)
  | failed (msg : PyStr)

/-- The JSON envelope returned by `fetch_and_display_news`, as a record of the
keys the two `json.dumps` calls can emit. -/
structure NewsEnvelope where
  status : PyStr
  message : Option PyStr := none
  endpoint : Option PyStr := none
  params : Option (List (PyStr × PVal)) := none
  articles : Option (List ArticleRec) := none
deriving Repr, DecidableEq

/-- Result of one `fetch_and_display_news` call: the request actually issued
(url and params; `none` if no request was made), the lines written to standard
output, and the returned envelope. -/
structure NewsOutcome where
  requested : Option (PyStr × List (PyStr × PVal))
  printed : List PyStr
  envelope : NewsEnvelope
deriving Repr, DecidableEq

/-- Python `f"{x}"` for a value that is a string or `None`. -/
def pyShowOpt (o : Option PyStr) : PyStr := o.getD (pyStr ("None"))

/-- Python `f"{idx}"` for the 1-based index. -/
def natToPyStr (n : Nat) : PyStr := (toString n).data

/-- Lines 25-55: construction of the query parameters (an insertion-ordered
dict modelled as an association list).  The `int(page_size)` of line 55 runs
on a string the validator accepted, so `pyIntOfDigits` is exact there. -/
def newsParamsPure (inp : NewsInputs) : List (PyStr × PVal) :=
  let base := [(pyStr ("apiKey"), PVal.str inp.apiKey)]
  if inp.endpoint = pyStr ("top-headlines") then
    base ++ (if inp.country ≠ [] then [(pyStr ("country"), PVal.str inp.country)] else [])
         ++ (if inp.category ≠ [] then [(pyStr ("category"), PVal.str inp.category)] else [])
  else if inp.endpoint = pyStr ("everything") then
    base ++ [(pyStr ("q"), PVal.str inp.query)]
         ++ (if inp.fromDate ≠ [] then [(pyStr ("from"), PVal.str inp.fromDate)] else [])
  else base

def buildNewsParams (inp : NewsInputs) : Except PyErr (List (PyStr × PVal)) :=
  match pyIntOfDigits inp.pageSize with
  | .error e => .error e
  | .ok n => .ok (newsParamsPure inp ++ [(pyStr ("pageSize"), PVal.int n)])

/-- Line 58: the request URL. -/
def newsBaseUrl (inp : NewsInputs) : PyStr := pyStr ("https://newsapi.org/v2/") ++ inp.endpoint

/-- `fetch_and_display_news` (newsasker.py lines 5-94), with the prompt layer
replaced by `inp` and the network layer by `resp`. -/
def fetch_and_display_news (inp : NewsInputs) (resp : NewsResp) : Except PyErr NewsOutcome :=
  match buildNewsParams inp with
  | .error e => .error e
  | .ok params =>
  match resp with
  | .failed m =>
    .ok ⟨some (newsBaseUrl inp, params), [],
      { status := pyStr ("error"), message := some (pyStr ("API request failed: ") ++ m) }⟩
  | .httpOk data =>
    if data.status ≠ some (pyStr ("ok")) then
      .ok ⟨some (newsBaseUrl inp, params), [],
        { status := pyStr ("error"),
          message := some (pyStr ("API returned status '") ++ pyShowOpt data.status
            ++ pyStr ("': ") ++ pyShowOpt data.message) }⟩
    else
      let articles := data.articles.getD []
      let results := articles.map (fun a => ArticleRec.mk a.title a.url)
      let printed := (results.enum.map (fun p =>
        [natToPyStr (p.1 + 1) ++ pyStr (". ") ++ pyShowOpt p.2.title,
         pyStr ("   ") ++ pyShowOpt p.2.url, []])).flatten
      .ok ⟨some (newsBaseUrl inp, params), printed,
        { status := pyStr ("success"), endpoint := some inp.endpoint,
          params := some params,
          articles := some results }⟩

/-- The four scheme names `_autocomplete_url` recognizes (line 28), as parsed
scheme components. -/
def schName (sch : PyStr) : Prop :=
  sch = pyStr ("http") ∨ sch = pyStr ("https") ∨ sch = pyStr ("ftp") ∨ sch = pyStr ("ftps")

/-- Invariants satisfied by every `urlparse` result of a recognized-scheme
URL; they are exactly what re-parsing its `urlunparse` serialization needs in
order to reproduce the same components. -/
structure ParseInv (p : UrlParts) : Prop where
  schemeOk : schName p.scheme
  netlocClean : p.netloc.all (fun c => !(isNetlocDelim c)) = true
  netlocBrackets : bracketsMismatch p.netloc = false
  joinedNoHash : ¬ '#' ∈ joinParams p.path p.params
  joinedNoQm : ¬ '?' ∈ joinParams p.path p.params
  joinedSlash : joinParams p.path p.params = [] ∨ (joinParams p.path p.params).take 1 = ['/']
  paramsStable : paramsPhase p.scheme (joinParams p.path p.params) = (p.path, p.params)
  queryNoHash : ¬ '#' ∈ p.query
  cleanBytes : (p.netloc ++ joinParams p.path p.params ++ p.query ++ p.fragment).all
      keepByte = true

/-! Sanity checks of the URL model against hand-traced CPython evaluations. -/

theorem sanity_openai :
    autocomplete_url (pyStr ("openai")) = .ok (pyStr ("https://openai/")) := by decide

theorem sanity_google :
    autocomplete_url (pyStr ("google.com")) = .ok (pyStr ("https://google.com/")) := by decide

theorem sanity_absolute :
    autocomplete_url (pyStr ("http://example.com")) = .ok (pyStr ("http://example.com")) := by
  decide

theorem sanity_path_only :
    autocomplete_url (pyStr ("/just/a/path")) = .ok (pyStr ("https://example.com/just/a/path")) := by
  decide

theorem sanity_full :
    autocomplete_url (pyStr ("example.com/some/path?query=1#fragment"))
      = .ok (pyStr ("https://example.com/some/path?query=1#fragment")) := by decide

theorem sanity_bracket :
    autocomplete_url (pyStr ("[")) = .error .valueError := by decide

/-! ## General list lemmas used throughout -/

theorem dwHeadFalse {p : Char → Bool} {l : List Char} {c : Char} {r : List Char}
    (h : l.dropWhile p = c :: r) : p c = false := by
  induction l with
  | nil => simp at h
  | cons a as ih =>
    rw [List.dropWhile_cons] at h
    by_cases hp : p a
    · rw [if_pos hp] at h; exact ih h
    · rw [if_neg hp] at h
      cases h
      simpa using hp

theorem twAppendAll {p : Char → Bool} {a : List Char} (b : List Char)
    (h : ∀ c ∈ a, p c = true) : (a ++ b).takeWhile p = a ++ b.takeWhile p := by
  induction a with
  | nil => simp
  | cons x xs ih =>
    have hx : p x = true := h x (by simp)
    simp only [List.cons_append, List.takeWhile_cons, hx, if_true]
    rw [ih (fun c hc => h c (by simp [hc]))]

theorem dwAppendAll {p : Char → Bool} {a : List Char} (b : List Char)
    (h : ∀ c ∈ a, p c = true) : (a ++ b).dropWhile p = b.dropWhile p := by
  induction a with
  | nil => simp
  | cons x xs ih =>
    have hx : p x = true := h x (by simp)
    simp only [List.cons_append, List.dropWhile_cons, hx, if_true]
    exact ih (fun c hc => h c (by simp [hc]))

theorem dwSelf {p : Char → Bool} {l : List Char}
    (h : ∀ c r, l = c :: r → p c = false) : l.dropWhile p = l := by
  cases l with
  | nil => rfl
  | cons c r => simp [List.dropWhile_cons, h c r rfl]

theorem twNil {p : Char → Bool} {l : List Char}
    (h : ∀ c r, l = c :: r → p c = false) : l.takeWhile p = [] := by
  cases l with
  | nil => rfl
  | cons c r => simp [List.takeWhile_cons, h c r rfl]

theorem pyStrip_idem (s : PyStr) : pyStrip (pyStrip s) = pyStrip s := by
  unfold pyStrip
  set Y := s.dropWhile isPySpace with hY
  set Z := Y.reverse.dropWhile isPySpace with hZ
  have hpre : Z.reverse.dropWhile isPySpace = Z.reverse := by
    apply dwSelf
    intro c r hcr
    obtain ⟨W, hW⟩ : ∃ W, W ++ Z = Y.reverse := List.dropWhile_suffix isPySpace
    have hYrev : Y = Z.reverse ++ W.reverse := by
      rw [← List.reverse_reverse Y, ← hW]; simp
    rw [hcr] at hYrev
    have hcons : Y = c :: (r ++ W.reverse) := by simpa using hYrev
    exact dwHeadFalse (l := s) (by rw [← hY, hcons])
  rw [hpre]
  rw [List.reverse_reverse]
  have hZdw : Z.dropWhile isPySpace = Z := by
    apply dwSelf
    intro c r hcr
    rw [hZ] at hcr
    exact dwHeadFalse hcr
  rw [hZdw]

/-! ## Lemmas about truncation and preview (scrape_the_web.py lines 102-108) -/

theorem truncSuffix_len : (pyStr ("\n... (content truncated)")).length = 24 := by decide

theorem truncateText_of_long {t : PyStr} (h : t.length > 5000) :
    truncateText t = t.take 5000 ++ pyStr ("\n... (content truncated)") := by
  unfold truncateText; rw [if_pos h]

theorem truncateText_of_short {t : PyStr} (h : ¬ t.length > 5000) : truncateText t = t := by
  unfold truncateText; rw [if_neg h]

theorem truncateText_long_length {t : PyStr} (h : t.length > 5000) :
    (truncateText t).length = 5024 := by
  rw [truncateText_of_long h]
  rw [List.length_append, List.length_take, truncSuffix_len]
  omega

theorem truncateText_length_le (t : PyStr) : (truncateText t).length ≤ 5024 := by
  by_cases h : t.length > 5000
  · exact le_of_eq (truncateText_long_length h)
  · rw [truncateText_of_short h]; omega

theorem previewOf_length_le (t : PyStr) : (previewOf t).length ≤ 203 := by
  unfold previewOf
  rw [List.length_append, List.length_take]
  by_cases h : t.length > 200
  · rw [if_pos h]
    have : (pyStr ("...")).length = 3 := by decide
    omega
  · rw [if_neg h]
    simp only [List.length_nil]
    omega

theorem previewOf_of_trunc_long {t : PyStr} (h : t.length > 5000) :
    previewOf (truncateText t) = t.take 200 ++ pyStr ("...") := by
  unfold previewOf
  rw [truncateText_long_length h, if_pos (by omega)]
  rw [truncateText_of_long h]
  rw [List.take_append_eq_append_take, List.length_take]
  have hmin : min 5000 t.length = 5000 := Nat.min_eq_left (by omega)
  rw [hmin]
  norm_num
  rw [List.take_take]
  norm_num

/-! ## Branch analysis of `scrapeweb` -/

theorem scrapeweb_cases {url : PyStr} {fetch : PyStr → FetchResult} {out : ScrapeOutcome}
    (hrun : scrapeweb url fetch = .ok out) :
    (out.requested = none ∧ out.envelope.status = pyStr ("error"))
    ∨ (∃ completed text, autocomplete_url url = .ok completed
        ∧ out.requested = some completed ∧ fetch completed = .success text
        ∧ out.envelope.status = pyStr ("success")
        ∧ out.envelope.full_content = some (truncateText text)
        ∧ out.envelope.content_preview = some (previewOf (truncateText text)))
    ∨ (∃ completed, autocomplete_url url = .ok completed
        ∧ out.requested = some completed ∧ out.envelope.status = pyStr ("error")
        ∧ ∀ text, fetch completed ≠ .success text) := by
  unfold scrapeweb at hrun
  split at hrun
  · cases hrun; exact Or.inl ⟨rfl, rfl⟩
  · split at hrun
    · exact Except.noConfusion hrun
    · rename_i completed hauto
      split at hrun
      · cases hrun; exact Or.inl ⟨rfl, rfl⟩
      · rename_i pf hparse
        split at hrun
        · cases hrun; exact Or.inl ⟨rfl, rfl⟩
        · split at hrun
          · rename_i text hfetch
            cases hrun
            exact Or.inr (Or.inl ⟨completed, text, hauto, rfl, hfetch, rfl, rfl, rfl⟩)
          · rename_i m hfetch
            cases hrun
            refine Or.inr (Or.inr ⟨completed, hauto, rfl, rfl, fun text hcon => ?_⟩)
            rw [hfetch] at hcon; cases hcon
          · rename_i m hfetch
            cases hrun
            refine Or.inr (Or.inr ⟨completed, hauto, rfl, rfl, fun text hcon => ?_⟩)
            rw [hfetch] at hcon; cases hcon
          · rename_i m hfetch
            cases hrun
            refine Or.inr (Or.inr ⟨completed, hauto, rfl, rfl, fun text hcon => ?_⟩)
            rw [hfetch] at hcon; cases hcon
          · rename_i m hfetch
            cases hrun
            refine Or.inr (Or.inr ⟨completed, hauto, rfl, rfl, fun text hcon => ?_⟩)
            rw [hfetch] at hcon; cases hcon
          · rename_i m hfetch
            cases hrun
            refine Or.inr (Or.inr ⟨completed, hauto, rfl, rfl, fun text hcon => ?_⟩)
            rw [hfetch] at hcon; cases hcon

/-! ## Claims C1, C2, C8 (scrapeweb input handling and URL normalization) -/

/-- C1: the claim states that schemeless dotless input "openai" normalizes to
host "openai.com".  The code disagrees: `urlparse('//openai')` already
extracts netloc "openai", so the `.com`-appending fallback of lines 49-57
never fires for such inputs and `_autocomplete_url('openai')` is
"https://openai/", whose host is "openai", not "openai.com". -/
theorem c1_code_eval :
    autocomplete_url (pyStr ("openai")) = .ok (pyStr ("https://openai/"))
    ∧ urlparseE (pyStr ("https://openai/"))
        = .ok ⟨pyStr ("https"), pyStr ("openai"), pyStr ("/"), [], [], []⟩
    ∧ pyStr ("openai") ≠ pyStr ("openai.com") := by decide

/-- C2: the claim states `scrapeweb` never lets an exception escape.  It does:
on input "[" the `urlparse('//[')` of line 41 raises `ValueError` ("Invalid
IPv6 URL") outside every `try`, so the exception escapes to the caller. -/
theorem c2_exception_escapes :
    scrapeweb (pyStr ("[")) (fun _ => FetchResult.otherErr []) = .error PyErr.valueError := by
  decide

/-- C8: on empty or whitespace-only input, `scrapeweb` returns the
"URL cannot be empty." error envelope immediately: the result does not depend
on the fetch oracle and no request is issued (`requested = none`). -/
theorem c8_empty_input (url : PyStr) (fetch : PyStr → FetchResult)
    (h : pyStrip url = []) :
    scrapeweb url fetch = .ok ⟨none,
      { status := pyStr ("error"),
        message := some (pyStr ("URL cannot be empty.")) }⟩ := by
  unfold scrapeweb
  rw [if_pos (Or.inr h)]

theorem c8_witness :
    pyStrip (pyStr ("   ")) = []
    ∧ scrapeweb (pyStr ("   ")) (fun _ => FetchResult.otherErr [])
        = .ok ⟨none,
            { status := pyStr ("error"),
              message := some (pyStr ("URL cannot be empty.")) }⟩ :=
  ⟨by decide, c8_empty_input (pyStr ("   ")) (fun _ => FetchResult.otherErr []) (by decide)⟩

/-! ## Claims C3, C9 (truncation and envelope length bounds) -/

/-- C3 counterexample: for a 5001-character extracted text the returned
`full_content` is not the first 5000 characters followed immediately by
"... (content truncated)": the code inserts a newline before the marker. -/
theorem c3_counterexample :
    ∃ out, scrapeweb (pyStr ("b.com")) (fun _ => FetchResult.success (List.replicate 5001 'x'))
        = .ok out
      ∧ out.envelope.status = pyStr ("success")
      ∧ out.envelope.full_content
          ≠ some ((List.replicate 5001 'x').take 5000 ++ pyStr ("... (content truncated)")) := by
  refine ⟨⟨some (pyStr ("https://b.com/")),
    { status := pyStr ("success"), original_url := some (pyStr ("b.com")),
      scraped_url := some (pyStr ("https://b.com/")),
      content_preview := some (previewOf (truncateText (List.replicate 5001 'x'))),
      full_content := some (truncateText (List.replicate 5001 'x')) }⟩, ?_, rfl, ?_⟩
  · simp only [scrapeweb]
    rw [if_neg (by decide)]
    simp only [show autocomplete_url (pyStr ("b.com")) = .ok (pyStr ("https://b.com/")) from
      by decide]
    simp only [show urlparseE (pyStr ("https://b.com/"))
        = .ok ⟨pyStr ("https"), pyStr ("b.com"), pyStr ("/"), [], [], []⟩ from by decide]
    rw [if_neg (by decide)]
  · intro hcon
    have hlen := congrArg List.length (Option.some.inj hcon)
    have hrep : (List.replicate 5001 'x').length > 5000 := by
      rw [List.length_replicate]; omega
    rw [truncateText_long_length hrep] at hlen
    have h23 : (pyStr ("... (content truncated)")).length = 23 := by decide
    rw [List.length_append, List.length_take, h23, List.length_replicate] at hlen
    omega

/-- C3 amended: for a successfully fetched page, when the extracted text
exceeds 5000 characters the returned `full_content` is its first 5000
characters followed by a newline and then the literal marker
"... (content truncated)", and `content_preview` is the first 200 characters
followed by "..."; text of at most 5000 characters is returned unchanged. -/
theorem c3_amended (url completed text : PyStr) (fetch : PyStr → FetchResult)
    (out : ScrapeOutcome) (hrun : scrapeweb url fetch = .ok out)
    (hreq : out.requested = some completed) (hf : fetch completed = .success text) :
    (text.length > 5000 →
      out.envelope.full_content
          = some (text.take 5000 ++ pyStr ("\n... (content truncated)"))
      ∧ out.envelope.content_preview = some (text.take 200 ++ pyStr ("...")))
    ∧ (text.length ≤ 5000 → out.envelope.full_content = some text) := by
  rcases scrapeweb_cases hrun with ⟨hn, _⟩ | ⟨c, t, _, hr, hft, _, hfc, hpv⟩ | ⟨c, _, hr, _, hne⟩
  · rw [hn] at hreq; cases hreq
  · rw [hr] at hreq
    injection hreq with hc
    subst hc
    have ht : t = text := by
      have := hft.symm.trans hf
      injection this
    subst ht
    constructor
    · intro hlong
      rw [hfc, truncateText_of_long hlong, hpv, previewOf_of_trunc_long hlong]
      exact ⟨rfl, rfl⟩
    · intro hshort
      rw [hfc, truncateText_of_short (by omega)]
  · rw [hr] at hreq
    injection hreq with hc
    subst hc
    exact absurd hf (hne text)

theorem c3_witness :
    scrapeweb (pyStr ("c.com")) (fun _ => FetchResult.success (pyStr ("hello")))
      = .ok ⟨some (pyStr ("https://c.com/")),
        { status := pyStr ("success"), original_url := some (pyStr ("c.com")),
          scraped_url := some (pyStr ("https://c.com/")),
          content_preview := some (pyStr ("hello")),
          full_content := some (pyStr ("hello")) }⟩
    ∧ (⟨some (pyStr ("https://c.com/")),
        { status := pyStr ("success"), original_url := some (pyStr ("c.com")),
          scraped_url := some (pyStr ("https://c.com/")),
          content_preview := some (pyStr ("hello")),
          full_content := some (pyStr ("hello")) }⟩ : ScrapeOutcome).envelope.full_content
        = some (pyStr ("hello")) :=
  ⟨by decide,
   (c3_amended (pyStr ("c.com")) (pyStr ("https://c.com/")) (pyStr ("hello"))
      (fun _ => FetchResult.success (pyStr ("hello")))
      ⟨some (pyStr ("https://c.com/")),
        { status := pyStr ("success"), original_url := some (pyStr ("c.com")),
          scraped_url := some (pyStr ("https://c.com/")),
          content_preview := some (pyStr ("hello")),
          full_content := some (pyStr ("hello")) }⟩
      (by decide) (by decide) rfl).2 (by decide)⟩

/-- C9 counterexample: a Success envelope whose `full_content` is 5024
characters long — above the claimed 5023-character bound, because the
truncation suffix is 24 characters ("\n" plus the marker), not 23. -/
theorem c9_counterexample :
    ∃ out, scrapeweb (pyStr ("a.com")) (fun _ => FetchResult.success (List.replicate 5001 'a'))
        = .ok out
      ∧ out.envelope.status = pyStr ("success")
      ∧ ∃ f, out.envelope.full_content = some f ∧ f.length = 5024 ∧ ¬ f.length ≤ 5023 := by
  refine ⟨⟨some (pyStr ("https://a.com/")),
    { status := pyStr ("success"), original_url := some (pyStr ("a.com")),
      scraped_url := some (pyStr ("https://a.com/")),
      content_preview := some (previewOf (truncateText (List.replicate 5001 'a'))),
      full_content := some (truncateText (List.replicate 5001 'a')) }⟩, ?_, rfl,
    truncateText (List.replicate 5001 'a'), rfl, ?_, ?_⟩
  · simp only [scrapeweb]
    rw [if_neg (by decide)]
    simp only [show autocomplete_url (pyStr ("a.com")) = .ok (pyStr ("https://a.com/")) from
      by decide]
    simp only [show urlparseE (pyStr ("https://a.com/"))
        = .ok ⟨pyStr ("https"), pyStr ("a.com"), pyStr ("/"), [], [], []⟩ from by decide]
    rw [if_neg (by decide)]
  · exact truncateText_long_length (by rw [List.length_replicate]; omega)
  · rw [truncateText_long_length (by rw [List.length_replicate]; omega)]
    omega

/-- C9 amended: every Success envelope has `full_content` of at most 5024
characters (5000 plus the 24-character suffix "\n... (content truncated)")
and `content_preview` of at most 203 characters. -/
theorem c9_amended (url : PyStr) (fetch : PyStr → FetchResult) (out : ScrapeOutcome)
    (hrun : scrapeweb url fetch = .ok out)
    (hs : out.envelope.status = pyStr ("success")) :
    ∃ p f, out.envelope.content_preview = some p ∧ out.envelope.full_content = some f
      ∧ p.length ≤ 203 ∧ f.length ≤ 5024 := by
  rcases scrapeweb_cases hrun with ⟨_, hst⟩ | ⟨c, t, _, _, _, _, hfc, hpv⟩ | ⟨c, _, _, hst, _⟩
  · exact absurd (hst.symm.trans hs) (by decide)
  · exact ⟨_, _, hpv, hfc, previewOf_length_le _, truncateText_length_le _⟩
  · exact absurd (hst.symm.trans hs) (by decide)

theorem c9_witness :
    ∃ p f,
      (⟨some (pyStr ("https://w.com/")),
        { status := pyStr ("success"), original_url := some (pyStr ("w.com")),
          scraped_url := some (pyStr ("https://w.com/")),
          content_preview := some (pyStr ("hi")),
          full_content := some (pyStr ("hi")) }⟩ : ScrapeOutcome).envelope.content_preview
          = some p
      ∧ (⟨some (pyStr ("https://w.com/")),
        { status := pyStr ("success"), original_url := some (pyStr ("w.com")),
          scraped_url := some (pyStr ("https://w.com/")),
          content_preview := some (pyStr ("hi")),
          full_content := some (pyStr ("hi")) }⟩ : ScrapeOutcome).envelope.full_content
          = some f
      ∧ p.length ≤ 203 ∧ f.length ≤ 5024 :=
  c9_amended (pyStr ("w.com")) (fun _ => FetchResult.success (pyStr ("hi")))
    ⟨some (pyStr ("https://w.com/")),
      { status := pyStr ("success"), original_url := some (pyStr ("w.com")),
        scraped_url := some (pyStr ("https://w.com/")),
        content_preview := some (pyStr ("hi")),
        full_content := some (pyStr ("hi")) }⟩
    (by decide) (by decide)

/-! ## Claim C4 (page-size validator) -/

/-- C4 counterexample: the Arabic-Indic digit five (U+0665) is a non-ASCII
digit character, which the claim says must be rejected, yet the validator
accepts it: `'٥'.isdigit()` is true and `int('٥') = 5` lies in `[1,100]`. -/
theorem c4_counterexample :
    pageSizeValidate (pyStr ("٥")) = .ok true
    ∧ ¬ (pyStr ("٥")).all (fun c => decide (c.toNat < 128)) := by decide

/-- C4 amended: the validator accepts a string iff it is non-empty, every
character is a Unicode decimal digit (Python `int()`-acceptable, which
includes non-ASCII decimal digits such as Arabic-Indic ones), and its decimal
value lies in [1,100]; out-of-range, non-numeric, empty and signed strings
are still rejected, but non-ASCII decimal-digit strings are accepted. -/
theorem c4_amended (s : PyStr) :
    pageSizeValidate s = .ok true ↔
      s ≠ [] ∧ s.all (fun c => (decDigitVal c).isSome)
        ∧ 1 ≤ decValue s ∧ decValue s ≤ 100 := by
  constructor
  · intro h
    unfold pageSizeValidate pyIntOfDigits at h
    by_cases hd : pyStrIsDigit s
    · rw [if_pos hd] at h
      by_cases hc : s ≠ [] ∧ s.all (fun c => (decDigitVal c).isSome)
      · rw [if_pos hc] at h
        injection h with hb
        rcases hc with ⟨h1, h2⟩
        have hb' := (Bool.and_eq_true _ _).mp hb
        rcases hb' with ⟨hb1, hb2⟩
        have ha : (1 : Int) ≤ Int.ofNat (decValue s) := of_decide_eq_true hb1
        have hbb : (Int.ofNat (decValue s)) ≤ 100 := of_decide_eq_true hb2
        exact ⟨h1, h2, Int.ofNat_le.mp ha, Int.ofNat_le.mp hbb⟩
      · rw [if_neg hc] at h
        exact Except.noConfusion h
    · rw [if_neg hd] at h
      injection h with hb
      cases hb
  · rintro ⟨h1, h2, h3, h4⟩
    have hd : pyStrIsDigit s = true := by
      unfold pyStrIsDigit
      refine (Bool.and_eq_true _ _).mpr ⟨?_, ?_⟩
      · cases s with
        | nil => exact absurd rfl h1
        | cons a l => rfl
      · rw [List.all_eq_true] at h2 ⊢
        intro c hcmem
        have hsome := h2 c hcmem
        unfold pyIsDigitChar
        rw [hsome]
        rfl
    unfold pageSizeValidate pyIntOfDigits
    rw [if_pos hd, if_pos ⟨h1, h2⟩]
    have ha : decide ((1 : Int) ≤ Int.ofNat (decValue s)) = true :=
      decide_eq_true (Int.ofNat_le.mpr h3)
    have hb : decide ((Int.ofNat (decValue s)) ≤ (100 : Int)) = true :=
      decide_eq_true (Int.ofNat_le.mpr h4)
    show Except.ok (decide ((1 : Int) ≤ Int.ofNat (decValue s))
        && decide ((Int.ofNat (decValue s)) ≤ (100 : Int))) = Except.ok true
    rw [ha, hb]
    rfl

theorem c4_witness :
    pageSizeValidate (pyStr ("42")) = .ok true :=
  (c4_amended (pyStr ("42"))).mpr (by decide)

/-! ## Claim C5 (the "everything" endpoint parameters) -/

theorem buildParams_everything (inp : NewsInputs) (n : Int)
    (he : inp.endpoint = pyStr ("everything")) (hn : pyIntOfDigits inp.pageSize = .ok n) :
    buildNewsParams inp = .ok
      ([(pyStr ("apiKey"), PVal.str inp.apiKey), (pyStr ("q"), PVal.str inp.query)]
        ++ (if inp.fromDate ≠ [] then [(pyStr ("from"), PVal.str inp.fromDate)] else [])
        ++ [(pyStr ("pageSize"), PVal.int n)]) := by
  simp only [buildNewsParams, newsParamsPure, hn, he]
  rw [if_neg (by decide)]
  simp

/-- C5 counterexample: with endpoint "everything" and an empty keyword, the
request is still issued, carrying `q = ""` — the empty keyword is accepted,
contradicting the claimed non-empty requirement.  (The from-date half of the
claim does hold; see the amended theorem.) -/
theorem c5_counterexample :
    (fetch_and_display_news
        ⟨pyStr ("everything"), pyStr ("key"), [], [], [], [], pyStr ("5")⟩
        (NewsResp.failed (pyStr ("boom")))).map (fun o => o.requested)
      = .ok (some (pyStr ("https://newsapi.org/v2/everything"),
          [(pyStr ("apiKey"), PVal.str (pyStr ("key"))), (pyStr ("q"), PVal.str []),
           (pyStr ("pageSize"), PVal.int 5)]))
    ∧ (pyStr ("q"), PVal.str []) ∈
        [(pyStr ("apiKey"), PVal.str (pyStr ("key"))), (pyStr ("q"), PVal.str []),
         (pyStr ("pageSize"), PVal.int 5)] := by decide

/-- C5 amended: with endpoint "everything" the keyword prompt performs no
validation: whatever keyword string was collected — including the empty
string — is always sent as the `q` parameter of the issued request; the
from-date parameter is included iff the collected from-date is non-blank. -/
theorem c5_amended (inp : NewsInputs) (resp : NewsResp) (n : Int)
    (he : inp.endpoint = pyStr ("everything")) (hn : pyIntOfDigits inp.pageSize = .ok n) :
    ∃ params, (fetch_and_display_news inp resp).map (fun o => o.requested)
        = .ok (some (newsBaseUrl inp, params))
      ∧ (pyStr ("q"), PVal.str inp.query) ∈ params
      ∧ ((pyStr ("from"), PVal.str inp.fromDate) ∈ params ↔ inp.fromDate ≠ []) := by
  have hbp := buildParams_everything inp n he hn
  refine ⟨[(pyStr ("apiKey"), PVal.str inp.apiKey), (pyStr ("q"), PVal.str inp.query)]
        ++ (if inp.fromDate ≠ [] then [(pyStr ("from"), PVal.str inp.fromDate)] else [])
        ++ [(pyStr ("pageSize"), PVal.int n)], ?_, ?_, ?_⟩
  · cases resp with
    | failed m => simp [fetch_and_display_news, hbp, Except.map]
    | httpOk data =>
      by_cases hst : data.status = some (pyStr ("ok"))
      · simp [fetch_and_display_news, hbp, hst, Except.map]
      · simp [fetch_and_display_news, hbp, hst, Except.map]
  · simp
  · by_cases hfd : inp.fromDate = []
    · rw [hfd]
      have hopt : (if ([] : PyStr) ≠ [] then [(pyStr ("from"), PVal.str ([] : PyStr))]
          else []) = [] := by simp
      rw [hopt, List.append_nil]
      constructor
      · intro hmem
        exfalso
        rcases List.mem_append.mp hmem with hm1 | hm1
        · rcases List.mem_cons.mp hm1 with hp | hp
          · exact absurd (show pyStr ("from") = pyStr ("apiKey") from congrArg Prod.fst hp)
              (by decide)
          · rcases List.mem_cons.mp hp with hp2 | hp2
            · exact absurd (show pyStr ("from") = pyStr ("q") from congrArg Prod.fst hp2)
                (by decide)
            · simp at hp2
        · rcases List.mem_cons.mp hm1 with hp | hp
          · exact absurd (show pyStr ("from") = pyStr ("pageSize") from congrArg Prod.fst hp)
              (by decide)
          · simp at hp
      · intro hcon
        exact absurd rfl hcon
    · rw [if_pos hfd]
      exact iff_of_true (by simp) hfd

theorem c5_witness :
    ∃ params, (fetch_and_display_news
        ⟨pyStr ("everything"), pyStr ("k"), [], [], pyStr ("bitcoin"),
         pyStr ("2024-01-01"), pyStr ("9")⟩
        (NewsResp.httpOk ⟨some (pyStr ("ok")), none, none⟩)).map (fun o => o.requested)
        = .ok (some (newsBaseUrl
            ⟨pyStr ("everything"), pyStr ("k"), [], [], pyStr ("bitcoin"),
             pyStr ("2024-01-01"), pyStr ("9")⟩, params))
      ∧ (pyStr ("q"), PVal.str (pyStr ("bitcoin"))) ∈ params
      ∧ ((pyStr ("from"), PVal.str (pyStr ("2024-01-01"))) ∈ params
          ↔ pyStr ("2024-01-01") ≠ []) :=
  c5_amended
    ⟨pyStr ("everything"), pyStr ("k"), [], [], pyStr ("bitcoin"),
     pyStr ("2024-01-01"), pyStr ("9")⟩
    (NewsResp.httpOk ⟨some (pyStr ("ok")), none, none⟩) 9 (by decide) (by decide)

/-! ## Claim C7 (remote status not "ok") -/

/-- C7: when the parsed body's status field differs from "ok", the tool
returns an Error envelope whose message embeds the remote status and the
remote message verbatim, and prints nothing to standard output. -/
theorem c7_remote_error (inp : NewsInputs) (data : RemoteData) (st m : PyStr) (n : Int)
    (hn : pyIntOfDigits inp.pageSize = .ok n)
    (hst : data.status = some st) (hne : st ≠ pyStr ("ok")) (hm : data.message = some m) :
    ∃ out, fetch_and_display_news inp (NewsResp.httpOk data) = .ok out
      ∧ out.printed = [] ∧ out.envelope.status = pyStr ("error")
      ∧ out.envelope.message
          = some (pyStr ("API returned status '") ++ st ++ pyStr ("': ") ++ m) := by
  obtain ⟨ps, hps⟩ : ∃ ps, buildNewsParams inp = .ok ps := by
    unfold buildNewsParams; rw [hn]; exact ⟨_, rfl⟩
  have hcond : data.status ≠ some (pyStr ("ok")) := by
    rw [hst]
    exact fun hcon => hne (Option.some.inj hcon)
  refine ⟨⟨some (newsBaseUrl inp, ps), [],
    { status := pyStr ("error"),
      message := some (pyStr ("API returned status '") ++ pyShowOpt data.status
        ++ pyStr ("': ") ++ pyShowOpt data.message) }⟩, ?_, rfl, rfl, ?_⟩
  · simp only [fetch_and_display_news, hps]
    rw [if_pos hcond]
  · rw [hst, hm]
    rfl

theorem c7_witness :
    ∃ out, fetch_and_display_news
        ⟨pyStr ("top-headlines"), pyStr ("k"), [], [], [], [], pyStr ("5")⟩
        (NewsResp.httpOk ⟨some (pyStr ("fail")), some (pyStr ("bad key")), none⟩) = .ok out
      ∧ out.printed = [] ∧ out.envelope.status = pyStr ("error")
      ∧ out.envelope.message
          = some (pyStr ("API returned status '") ++ pyStr ("fail")
              ++ pyStr ("': ") ++ pyStr ("bad key")) :=
  c7_remote_error
    ⟨pyStr ("top-headlines"), pyStr ("k"), [], [], [], [], pyStr ("5")⟩
    ⟨some (pyStr ("fail")), some (pyStr ("bad key")), none⟩
    (pyStr ("fail")) (pyStr ("bad key")) 5 (by decide) rfl (by decide) rfl

/-! ## Claim C10 (whitespace invariance of normalization) -/

/-- C10: `_autocomplete_url` strips its input first and `strip` is
idempotent, so normalization is invariant under surrounding whitespace, and
`scrapeweb` issues a request to the same URL (or equally issues none) for
inputs differing only in surrounding whitespace. -/
theorem c10_strip_invariance (s : PyStr) (fetch : PyStr → FetchResult) :
    autocomplete_url s = autocomplete_url (pyStrip s)
    ∧ (scrapeweb s fetch).map (fun o => o.requested)
        = (scrapeweb (pyStrip s) fetch).map (fun o => o.requested) := by
  have hA : autocomplete_url s = autocomplete_url (pyStrip s) := by
    simp only [autocomplete_url, pyStrip_idem]
  refine ⟨hA, ?_⟩
  by_cases h0 : pyStrip s = []
  · unfold scrapeweb
    rw [if_pos (Or.inr h0), if_pos (Or.inl h0)]
  · have hs1 : ¬(s = [] ∨ pyStrip s = []) := by
      rintro (rfl | hc)
      · exact h0 rfl
      · exact h0 hc
    have hs2 : ¬(pyStrip s = [] ∨ pyStrip (pyStrip s) = []) := by
      rintro (hc | hc)
      · exact h0 hc
      · rw [pyStrip_idem] at hc; exact h0 hc
    unfold scrapeweb
    rw [if_neg hs1, if_neg hs2, ← hA]
    cases hau : autocomplete_url s with
    | error e => simp
    | ok completed =>
      simp only []
      cases hp : urlparseE completed with
      | error e => simp [Except.map]
      | ok pf =>
        simp only []
        by_cases hsn : pf.scheme = [] ∨ pf.netloc = []
        · rw [if_pos hsn, if_pos hsn]
          simp [Except.map]
        · rw [if_neg hsn, if_neg hsn]
          cases fetch completed <;> simp [Except.map]

/-! ## Generic splitting lemmas for the round-trip argument (claim C6) -/

theorem startsWithL_iff (pat s : PyStr) : startsWithL pat s = true ↔ ∃ t, s = pat ++ t := by
  induction pat generalizing s with
  | nil => simp [startsWithL]
  | cons a as ih =>
    cases s with
    | nil =>
      simp only [startsWithL]
      constructor
      · intro h; exact Bool.noConfusion h
      · rintro ⟨t, ht⟩; exact List.noConfusion ht
    | cons b bs =>
      simp only [startsWithL, Bool.and_eq_true, beq_iff_eq, List.cons_append]
      constructor
      · rintro ⟨rfl, h⟩
        obtain ⟨t, rfl⟩ := (ih bs).mp h
        exact ⟨t, rfl⟩
      · rintro ⟨t, ht⟩
        injection ht with h1 h2
        exact ⟨h1.symm, (ih bs).mpr ⟨t, h2⟩⟩

theorem all_takeWhile (p : Char → Bool) (l : PyStr) : (l.takeWhile p).all p = true := by
  induction l with
  | nil => rfl
  | cons a as ih =>
    rw [List.takeWhile_cons]
    by_cases hp : p a = true
    · rw [if_pos hp]; simp [List.all_cons, hp, ih]
    · rw [if_neg hp]; rfl

theorem all_takeWhile_of_all {p q : Char → Bool} {l : PyStr} (h : l.all q = true) :
    (l.takeWhile p).all q = true := by
  have hsplit := List.takeWhile_append_dropWhile (p := p) (l := l)
  rw [← hsplit, List.all_append, Bool.and_eq_true] at h
  exact h.1

theorem all_dropWhile_of_all {p q : Char → Bool} {l : PyStr} (h : l.all q = true) :
    (l.dropWhile p).all q = true := by
  have hsplit := List.takeWhile_append_dropWhile (p := p) (l := l)
  rw [← hsplit, List.all_append, Bool.and_eq_true] at h
  exact h.2

theorem all_tail_of_all {q : Char → Bool} {l : PyStr} (h : l.all q = true) :
    l.tail.all q = true := by
  cases l with
  | nil => rfl
  | cons a as => rw [List.all_cons, Bool.and_eq_true] at h; exact h.2

theorem not_mem_of_all_ne {t : Char} {l : PyStr} (h : l.all (fun c => c != t) = true) :
    t ∉ l := by
  intro hmem
  rw [List.all_eq_true] at h
  have := h t hmem
  simp at this

theorem all_ne_of_not_mem {t : Char} {l : PyStr} (h : t ∉ l) :
    l.all (fun c => c != t) = true := by
  rw [List.all_eq_true]
  intro c hc
  exact bne_iff_ne.mpr (fun hee => h (hee ▸ hc))

theorem cutFirst_of_not_mem {t : Char} {u : PyStr} (h : t ∉ u) : cutFirst t u = (u, []) := by
  unfold cutFirst; rw [if_neg h]

theorem cutFirst_split {t : Char} {a b : PyStr} (ha : t ∉ a) :
    cutFirst t (a ++ t :: b) = (a, b) := by
  unfold cutFirst
  rw [if_pos (List.mem_append.mpr (Or.inr (List.mem_cons_self _ _)))]
  have h1 : ∀ c ∈ a, (c != t) = true := fun c hc => bne_iff_ne.mpr (fun hee => ha (hee ▸ hc))
  rw [twAppendAll _ h1, dwAppendAll _ h1]
  simp [List.takeWhile_cons, List.dropWhile_cons]

theorem cutFirst_decomp (t : Char) (u : PyStr) :
    t ∉ (cutFirst t u).1 ∧ (u = (cutFirst t u).1 ++ t :: (cutFirst t u).2
      ∨ ((cutFirst t u).2 = [] ∧ (cutFirst t u).1 = u)) := by
  unfold cutFirst
  by_cases hm : t ∈ u
  · rw [if_pos hm]
    refine ⟨not_mem_of_all_ne (all_takeWhile _ _), Or.inl ?_⟩
    have hsplit := List.takeWhile_append_dropWhile (p := fun c => c != t) (l := u)
    cases hdw : u.dropWhile (fun c => c != t) with
    | nil =>
      exfalso
      rw [hdw, List.append_nil] at hsplit
      exact not_mem_of_all_ne (hsplit ▸ all_takeWhile (fun c => c != t) u) hm
    | cons c r =>
      have hc : (c != t) = false := dwHeadFalse (p := fun x => x != t) hdw
      have hct : c = t := by simpa using hc
      subst hct
      conv_lhs => rw [← hsplit]
      rw [hdw]
      simp
  · rw [if_neg hm]
    exact ⟨hm, Or.inr ⟨rfl, rfl⟩⟩

/-! ## Phase lemmas of the URL model (claim C6) -/

theorem preClean_lit (a t : PyStr) (hne : a ≠ [])
    (h0 : ∀ c r, a = c :: r → isC0OrSpace c = false)
    (h1 : a.all keepByte = true) :
    preClean (a ++ t) = a ++ t.filter keepByte := by
  unfold preClean
  have hdw : (a ++ t).dropWhile isC0OrSpace = a ++ t := by
    apply dwSelf
    intro c r hcr
    cases a with
    | nil => exact absurd rfl hne
    | cons a0 as =>
      rw [List.cons_append] at hcr
      injection hcr with hc _
      exact hc ▸ h0 a0 as rfl
  rw [hdw, List.filter_append]
  congr 1
  exact List.filter_eq_self.mpr (List.all_eq_true.mp h1)

theorem schemePhase_decomp (sch rest : PyStr)
    (h1 : sch.all (fun c => c != ':') = true)
    (h2 : sch.head?.any Char.isAlpha = true)
    (h3 : sch.all isSchemeChar = true)
    (h4 : sch.map Char.toLower = sch) :
    schemePhase (sch ++ ':' :: rest) = (sch, rest) := by
  unfold schemePhase
  have hmem : ':' ∈ sch ++ ':' :: rest := List.mem_append.mpr (Or.inr (List.mem_cons_self _ _))
  rw [if_pos hmem]
  have htw : (sch ++ ':' :: rest).takeWhile (fun c => c != ':') = sch := by
    rw [twAppendAll _ (List.all_eq_true.mp h1)]
    simp [List.takeWhile_cons]
  have hdw : (sch ++ ':' :: rest).dropWhile (fun c => c != ':') = ':' :: rest := by
    rw [dwAppendAll _ (List.all_eq_true.mp h1)]
    simp [List.dropWhile_cons]
  rw [htw, hdw]
  have hcond : (sch.head?.any Char.isAlpha && sch.all isSchemeChar) = true := by
    rw [h2, h3]
    rfl
  rw [if_pos hcond, h4]
  rfl

theorem netlocPhase_split (nl rest : PyStr)
    (h1 : nl.all (fun c => !(isNetlocDelim c)) = true)
    (h2 : rest = [] ∨ ∃ c r, rest = c :: r ∧ isNetlocDelim c = true)
    (h3 : bracketsMismatch nl = false) :
    netlocPhase ('/' :: '/' :: (nl ++ rest)) = .ok (nl, rest) := by
  unfold netlocPhase
  rw [if_pos (show List.take 2 ('/' :: '/' :: (nl ++ rest)) = ['/', '/'] from rfl)]
  have hdrop : ('/' :: '/' :: (nl ++ rest)).drop 2 = nl ++ rest := rfl
  rw [hdrop]
  have htw : (nl ++ rest).takeWhile (fun c => !(isNetlocDelim c)) = nl := by
    rw [twAppendAll _ (List.all_eq_true.mp h1)]
    rcases h2 with rfl | ⟨c, r, rfl, hc⟩
    · simp
    · simp [List.takeWhile_cons, hc]
  have hdw : (nl ++ rest).dropWhile (fun c => !(isNetlocDelim c)) = rest := by
    rw [dwAppendAll _ (List.all_eq_true.mp h1)]
    rcases h2 with rfl | ⟨c, r, rfl, hc⟩
    · simp
    · simp [List.dropWhile_cons, hc]
  rw [htw, hdw, if_neg (by simp [h3])]

theorem lastSlash_split (a b : PyStr) (hb : '/' ∉ b) :
    afterLastSlash (a ++ '/' :: b) = b ∧ beforeLastSlash (a ++ '/' :: b) = a := by
  unfold afterLastSlash beforeLastSlash
  have hrev : (a ++ '/' :: b).reverse = b.reverse ++ '/' :: a.reverse := by
    rw [List.reverse_append, List.reverse_cons]
    simp
  rw [hrev]
  have hall : ∀ c ∈ b.reverse, (c != '/') = true := by
    intro c hc
    exact bne_iff_ne.mpr (fun he => hb (he ▸ (List.mem_reverse.mp hc)))
  constructor
  · rw [twAppendAll _ hall]
    simp [List.takeWhile_cons]
  · rw [dwAppendAll _ hall]
    simp [List.dropWhile_cons]

theorem mem_slash_decomp {u : PyStr} (h : '/' ∈ u) :
    ∃ a b, u = a ++ '/' :: b ∧ '/' ∉ b := by
  have hur : '/' ∈ u.reverse := List.mem_reverse.mpr h
  obtain ⟨hnm, hdec⟩ := cutFirst_decomp '/' u.reverse
  rcases hdec with hdec | ⟨_, hdec⟩
  · refine ⟨(cutFirst '/' u.reverse).2.reverse, (cutFirst '/' u.reverse).1.reverse, ?_, ?_⟩
    · conv_lhs => rw [← List.reverse_reverse u, hdec]
      rw [List.reverse_append, List.reverse_cons]
      simp
    · intro hc
      exact hnm (List.mem_reverse.mp hc)
  · exact absurd (by rw [hdec]; exact hur) hnm

theorem startsWithL_self (a t : PyStr) : startsWithL a (a ++ t) = true := by
  induction a with
  | nil => rfl
  | cons c cs ih => simp [startsWithL, ih]

theorem recognized_decomp {u : PyStr} (h : startsWithRecognized u = true) :
    ∃ sch t, schName sch ∧ u = sch ++ ':' :: '/' :: '/' :: t := by
  unfold startsWithRecognized recognizedSchemeMarks at h
  simp only [List.any_cons, List.any_nil, Bool.or_eq_true, Bool.or_false] at h
  rcases h with h | h | h | h
  · obtain ⟨t, rfl⟩ := (startsWithL_iff _ _).mp h
    exact ⟨pyStr ("http"), t, Or.inl rfl, rfl⟩
  · obtain ⟨t, rfl⟩ := (startsWithL_iff _ _).mp h
    exact ⟨pyStr ("https"), t, Or.inr (Or.inl rfl), rfl⟩
  · obtain ⟨t, rfl⟩ := (startsWithL_iff _ _).mp h
    exact ⟨pyStr ("ftp"), t, Or.inr (Or.inr (Or.inl rfl)), rfl⟩
  · obtain ⟨t, rfl⟩ := (startsWithL_iff _ _).mp h
    exact ⟨pyStr ("ftps"), t, Or.inr (Or.inr (Or.inr rfl)), rfl⟩

/-! ## Stability of the params split under rejoining (claim C6) -/

theorem mem_split_first {t : Char} {u : PyStr} (h : t ∈ u) :
    u = u.takeWhile (fun c => c != t) ++ t :: (u.dropWhile (fun c => c != t)).tail := by
  obtain ⟨hnm, hdec⟩ := cutFirst_decomp t u
  have hcf1 : (cutFirst t u).1 = u.takeWhile (fun c => c != t) := by
    unfold cutFirst; rw [if_pos h]
  have hcf2 : (cutFirst t u).2 = (u.dropWhile (fun c => c != t)).tail := by
    unfold cutFirst; rw [if_pos h]
  rcases hdec with hdec | ⟨_, hone⟩
  · rw [hcf1, hcf2] at hdec
    exact hdec
  · rw [hcf1] at hone
    exact absurd (by rw [hone]; exact h) (not_mem_of_all_ne (all_takeWhile _ _))

theorem joinParams_nil (pa : PyStr) : joinParams pa [] = pa := by
  unfold joinParams; simp

theorem joinParams_cons (pa : PyStr) (c : Char) (pr : PyStr) :
    joinParams pa (c :: pr) = pa ++ ';' :: c :: pr := by
  unfold joinParams; simp

theorem paramsPhase_inv (sch u pa pr : PyStr) (h : paramsPhase sch u = (pa, pr)) :
    paramsPhase sch (joinParams pa pr) = (pa, pr)
    ∧ (joinParams pa pr = u ∨ u = joinParams pa pr ++ [';']) := by
  unfold paramsPhase at h
  by_cases hg : sch ∈ usesParams ∧ ';' ∈ u
  · rw [if_pos hg] at h
    by_cases hs : '/' ∈ u
    · obtain ⟨a, b, rfl, hb⟩ := mem_slash_decomp hs
      unfold pySplitParams at h
      rw [if_pos hs, (lastSlash_split a b hb).1, (lastSlash_split a b hb).2] at h
      by_cases hsb : ';' ∈ b
      · rw [if_pos hsb] at h
        injection h with h1 h2
        subst h1
        subst h2
        have hbdec := mem_split_first hsb
        have hnm1 : ';' ∉ b.takeWhile (fun c => c != ';') :=
          not_mem_of_all_ne (all_takeWhile _ _)
        cases hpr : (b.dropWhile (fun c => c != ';')).tail with
        | nil =>
          rw [joinParams_nil]
          constructor
          · unfold paramsPhase
            by_cases hsp : ';' ∈ a ++ '/' :: b.takeWhile (fun c => c != ';')
            · rw [if_pos ⟨hg.1, hsp⟩]
              unfold pySplitParams
              rw [if_pos (List.mem_append.mpr (Or.inr (List.mem_cons_self _ _)))]
              have hB1s : '/' ∉ b.takeWhile (fun c => c != ';') :=
                not_mem_of_all_ne (all_takeWhile_of_all (all_ne_of_not_mem hb))
              rw [(lastSlash_split a _ hB1s).1]
              rw [if_neg hnm1]
            · rw [if_neg (fun hcon => hsp hcon.2)]
          · right
            have hb2 : b = b.takeWhile (fun c => c != ';') ++ [';'] := by
              conv_lhs => rw [hbdec]
              rw [hpr]
            conv_lhs => rw [hb2]
            simp
        | cons c2 r2 =>
          rw [joinParams_cons]
          have hjoin : (a ++ '/' :: b.takeWhile (fun c => c != ';')) ++ ';' :: c2 :: r2
              = a ++ '/' :: b := by
            conv_rhs => rw [hbdec]
            rw [hpr]
            simp
          rw [hjoin]
          constructor
          · unfold paramsPhase pySplitParams
            rw [if_pos hg, if_pos hs, (lastSlash_split a b hb).1, (lastSlash_split a b hb).2,
              if_pos hsb, hpr]
          · left; rfl
      · rw [if_neg hsb] at h
        injection h with h1 h2
        subst h1
        subst h2
        rw [joinParams_nil]
        constructor
        · unfold paramsPhase pySplitParams
          rw [if_pos hg, if_pos hs, (lastSlash_split a b hb).1, if_neg hsb]
        · left; rfl
    · unfold pySplitParams at h
      rw [if_neg hs] at h
      injection h with h1 h2
      subst h1
      subst h2
      have hsu : ';' ∈ u := hg.2
      have hudec := mem_split_first hsu
      have hnm1 : ';' ∉ u.takeWhile (fun c => c != ';') :=
        not_mem_of_all_ne (all_takeWhile _ _)
      cases hpr : (u.dropWhile (fun c => c != ';')).tail with
      | nil =>
        rw [joinParams_nil]
        constructor
        · unfold paramsPhase
          rw [if_neg (fun hcon => hnm1 hcon.2)]
        · right
          rw [hpr] at hudec
          conv_lhs => rw [hudec]
      | cons c2 r2 =>
        rw [joinParams_cons]
        have hjoin : u.takeWhile (fun c => c != ';') ++ ';' :: c2 :: r2 = u := by
          conv_rhs => rw [hudec]
          rw [hpr]
        rw [hjoin]
        refine ⟨?_, Or.inl rfl⟩
        unfold paramsPhase pySplitParams
        rw [if_pos hg, if_neg hs, hpr]
  · rw [if_neg hg] at h
    injection h with h1 h2
    subst h1
    subst h2
    rw [joinParams_nil]
    refine ⟨?_, Or.inl rfl⟩
    unfold paramsPhase
    rw [if_neg hg]

/-! ## Evaluating a recognized-scheme parse symbolically (claim C6) -/

theorem all_filter_self (p : Char → Bool) (l : PyStr) : (l.filter p).all p = true := by
  rw [List.all_eq_true]
  intro c hc
  exact (List.mem_filter.mp hc).2

theorem take_one_append {a : PyStr} (b : PyStr) (h : a ≠ []) :
    (a ++ b).take 1 = a.take 1 := by
  cases a with
  | nil => exact absurd rfl h
  | cons c r => rfl

theorem all_cutFirst {t : Char} {q : Char → Bool} {u : PyStr} (h : u.all q = true) :
    (cutFirst t u).1.all q = true ∧ (cutFirst t u).2.all q = true := by
  unfold cutFirst
  by_cases hm : t ∈ u
  · rw [if_pos hm]
    exact ⟨all_takeWhile_of_all h, all_tail_of_all (all_dropWhile_of_all h)⟩
  · rw [if_neg hm]
    exact ⟨h, rfl⟩

theorem cutFirst_fst_head (t : Char) (u : PyStr) :
    (cutFirst t u).1 = [] ∨ (cutFirst t u).1.take 1 = u.take 1 := by
  unfold cutFirst
  by_cases hm : t ∈ u
  · rw [if_pos hm]
    cases u with
    | nil => exact Or.inl rfl
    | cons c r =>
      rw [List.takeWhile_cons]
      by_cases hc : (c != t) = true
      · rw [if_pos hc]
        exact Or.inr rfl
      · rw [if_neg hc]
        exact Or.inl rfl
  · rw [if_neg hm]
    exact Or.inr rfl

theorem netlocPhase_dslash (w : PyStr) :
    netlocPhase ('/' :: '/' :: w)
      = if bracketsMismatch (w.takeWhile (fun c => !(isNetlocDelim c))) then
          .error .valueError
        else .ok (w.takeWhile (fun c => !(isNetlocDelim c)),
                  w.dropWhile (fun c => !(isNetlocDelim c))) := by
  unfold netlocPhase
  rw [if_pos (show List.take 2 ('/' :: '/' :: w) = ['/', '/'] from rfl)]
  rfl

theorem schName_facts (sch : PyStr) (hsch : schName sch) :
    sch ≠ [] ∧ (∀ c r, sch ++ [':', '/', '/'] = c :: r → isC0OrSpace c = false)
    ∧ (sch ++ [':', '/', '/']).all keepByte = true
    ∧ sch.all (fun c => c != ':') = true
    ∧ sch.head?.any Char.isAlpha = true
    ∧ sch.all isSchemeChar = true
    ∧ sch.map Char.toLower = sch := by
  rcases hsch with rfl | rfl | rfl | rfl <;>
    exact ⟨by decide, fun c r hcr => by injection hcr with h1 _; rw [← h1]; decide,
      by decide, by decide, by decide, by decide, by decide⟩

theorem urlsplit_scheme_eval (sch t : PyStr) (hsch : schName sch)
    (hbr : bracketsMismatch ((t.filter keepByte).takeWhile (fun c => !(isNetlocDelim c)))
      = false) :
    urlsplitE (sch ++ ':' :: '/' :: '/' :: t)
      = .ok ⟨sch,
          (t.filter keepByte).takeWhile (fun c => !(isNetlocDelim c)),
          (cutFirst '?'
            (cutFirst '#' ((t.filter keepByte).dropWhile (fun c => !(isNetlocDelim c)))).1).1,
          (cutFirst '?'
            (cutFirst '#' ((t.filter keepByte).dropWhile (fun c => !(isNetlocDelim c)))).1).2,
          (cutFirst '#' ((t.filter keepByte).dropWhile (fun c => !(isNetlocDelim c)))).2⟩ := by
  obtain ⟨hne, h0, h1, h2, h3, h4, h5⟩ := schName_facts sch hsch
  unfold urlsplitE
  have hpc : preClean (sch ++ ':' :: '/' :: '/' :: t)
      = sch ++ ':' :: '/' :: '/' :: t.filter keepByte := by
    have e1 : sch ++ ':' :: '/' :: '/' :: t = (sch ++ [':', '/', '/']) ++ t := by simp
    rw [e1, preClean_lit _ _ (by simp) h0 h1]
    simp
  rw [hpc, schemePhase_decomp sch _ h2 h3 h4 h5]
  rw [show ((sch, '/' :: '/' :: t.filter keepByte) : PyStr × PyStr).2
      = '/' :: '/' :: t.filter keepByte from rfl]
  rw [netlocPhase_dslash, if_neg (by simp [hbr])]

theorem urlsplit_scheme_eval_err (sch t : PyStr) (hsch : schName sch)
    (hbr : bracketsMismatch ((t.filter keepByte).takeWhile (fun c => !(isNetlocDelim c)))
      = true) :
    urlsplitE (sch ++ ':' :: '/' :: '/' :: t) = .error .valueError := by
  obtain ⟨hne, h0, h1, h2, h3, h4, h5⟩ := schName_facts sch hsch
  unfold urlsplitE
  have hpc : preClean (sch ++ ':' :: '/' :: '/' :: t)
      = sch ++ ':' :: '/' :: '/' :: t.filter keepByte := by
    have e1 : sch ++ ':' :: '/' :: '/' :: t = (sch ++ [':', '/', '/']) ++ t := by simp
    rw [e1, preClean_lit _ _ (by simp) h0 h1]
    simp
  rw [hpc, schemePhase_decomp sch _ h2 h3 h4 h5]
  rw [show ((sch, '/' :: '/' :: t.filter keepByte) : PyStr × PyStr).2
      = '/' :: '/' :: t.filter keepByte from rfl]
  rw [netlocPhase_dslash, if_pos (by simp [hbr])]

/-! ## The parse invariants hold for every recognized-scheme parse (claim C6) -/

theorem parseInv_of_parse (sch t : PyStr) (p : UrlParts) (hsch : schName sch)
    (h : urlparseE (sch ++ ':' :: '/' :: '/' :: t) = .ok p) :
    ParseInv p ∧ p.scheme = sch := by
  by_cases hbr : bracketsMismatch
      ((t.filter keepByte).takeWhile (fun c => !(isNetlocDelim c))) = true
  · rw [show urlparseE (sch ++ ':' :: '/' :: '/' :: t) = .error .valueError from by
      unfold urlparseE; rw [urlsplit_scheme_eval_err sch t hsch hbr]] at h
    exact Except.noConfusion h
  · have hbr' : bracketsMismatch
        ((t.filter keepByte).takeWhile (fun c => !(isNetlocDelim c))) = false := by
      revert hbr
      cases bracketsMismatch ((t.filter keepByte).takeWhile (fun c => !(isNetlocDelim c))) <;>
        simp
    unfold urlparseE at h
    rw [urlsplit_scheme_eval sch t hsch hbr'] at h
    have h' : (⟨sch,
        (t.filter keepByte).takeWhile (fun c => !(isNetlocDelim c)),
        (paramsPhase sch (cutFirst '?'
          (cutFirst '#' ((t.filter keepByte).dropWhile (fun c => !(isNetlocDelim c)))).1).1).1,
        (paramsPhase sch (cutFirst '?'
          (cutFirst '#' ((t.filter keepByte).dropWhile (fun c => !(isNetlocDelim c)))).1).1).2,
        (cutFirst '?'
          (cutFirst '#' ((t.filter keepByte).dropWhile (fun c => !(isNetlocDelim c)))).1).2,
        (cutFirst '#' ((t.filter keepByte).dropWhile (fun c => !(isNetlocDelim c)))).2⟩
          : UrlParts) = p := Except.ok.inj h
    subst h'
    obtain ⟨hstab, hjrel⟩ := paramsPhase_inv sch
      (cutFirst '?'
        (cutFirst '#' ((t.filter keepByte).dropWhile (fun c => !(isNetlocDelim c)))).1).1
      (paramsPhase sch (cutFirst '?'
        (cutFirst '#' ((t.filter keepByte).dropWhile (fun c => !(isNetlocDelim c)))).1).1).1
      (paramsPhase sch (cutFirst '?'
        (cutFirst '#' ((t.filter keepByte).dropWhile (fun c => !(isNetlocDelim c)))).1).1).2
      rfl
    have hd3 := cutFirst_decomp '#'
      ((t.filter keepByte).dropWhile (fun c => !(isNetlocDelim c)))
    have hd4 := cutFirst_decomp '?'
      (cutFirst '#' ((t.filter keepByte).dropWhile (fun c => !(isNetlocDelim c)))).1
    have hnh4 : ¬ '#' ∈ (cutFirst '?'
        (cutFirst '#' ((t.filter keepByte).dropWhile (fun c => !(isNetlocDelim c)))).1).1 := by
      intro hmem
      rcases hd4.2 with he | ⟨_, he⟩
      · exact hd3.1 (by rw [he]; exact List.mem_append.mpr (Or.inl hmem))
      · exact hd3.1 (by rw [← he]; exact hmem)
    have hrest : ((t.filter keepByte).dropWhile (fun c => !(isNetlocDelim c))) = []
        ∨ ∃ c r, ((t.filter keepByte).dropWhile (fun c => !(isNetlocDelim c))) = c :: r
            ∧ isNetlocDelim c = true := by
      cases hr : ((t.filter keepByte).dropWhile (fun c => !(isNetlocDelim c))) with
      | nil => exact Or.inl rfl
      | cons c r =>
        refine Or.inr ⟨c, r, rfl, ?_⟩
        have := dwHeadFalse (p := fun c => !(isNetlocDelim c)) hr
        simpa using this
    have hu4 : (cutFirst '?'
        (cutFirst '#' ((t.filter keepByte).dropWhile (fun c => !(isNetlocDelim c)))).1).1 = []
      ∨ (cutFirst '?'
        (cutFirst '#' ((t.filter keepByte).dropWhile
          (fun c => !(isNetlocDelim c)))).1).1.take 1 = ['/'] := by
      rcases hrest with hr | ⟨c, r, hr, hc⟩
      · left
        have h3e : (cutFirst '#'
            ((t.filter keepByte).dropWhile (fun c => !(isNetlocDelim c)))).1 = [] := by
          rw [hr, cutFirst_of_not_mem (List.not_mem_nil '#')]
        rw [h3e, cutFirst_of_not_mem (List.not_mem_nil '?')]
      · have hc3 : (c = '/' ∨ c = '?') ∨ c = '#' := by
          unfold isNetlocDelim at hc
          simpa using hc
        rcases hc3 with (rfl | rfl) | rfl
        · rcases cutFirst_fst_head '#'
              ((t.filter keepByte).dropWhile (fun c => !(isNetlocDelim c))) with h3e | h3t
          · left
            rw [h3e, cutFirst_of_not_mem (List.not_mem_nil '?')]
          · rcases cutFirst_fst_head '?' (cutFirst '#'
                ((t.filter keepByte).dropWhile (fun c => !(isNetlocDelim c)))).1 with h4e | h4t
            · left; exact h4e
            · right
              rw [h4t, h3t, hr]
              rfl
        · rcases cutFirst_fst_head '#'
              ((t.filter keepByte).dropWhile (fun c => !(isNetlocDelim c))) with h3e | h3t
          · left
            rw [h3e, cutFirst_of_not_mem (List.not_mem_nil '?')]
          · left
            have hrt : ((t.filter keepByte).dropWhile
                (fun c => !(isNetlocDelim c))).take 1 = ['?'] := by
              rw [hr]
              rfl
            have h3t' : (cutFirst '#' ((t.filter keepByte).dropWhile
                (fun c => !(isNetlocDelim c)))).1.take 1 = ['?'] := by
              rw [h3t, hrt]
            obtain ⟨s, hu3⟩ : ∃ s, (cutFirst '#' ((t.filter keepByte).dropWhile
                (fun c => !(isNetlocDelim c)))).1 = '?' :: s := by
              cases hu3 : (cutFirst '#' ((t.filter keepByte).dropWhile
                  (fun c => !(isNetlocDelim c)))).1 with
              | nil =>
                rw [hu3] at h3t'
                exact absurd h3t' (by simp)
              | cons c0 s =>
                rw [hu3] at h3t'
                have hc0 : c0 = '?' := by simpa using h3t'
                exact ⟨s, by rw [hc0]⟩
            have hq0 : cutFirst '?' ('?' :: s) = ([], s) :=
              cutFirst_split (List.not_mem_nil '?')
            rw [hu3, hq0]
        · left
          have h3e : (cutFirst '#' ((t.filter keepByte).dropWhile
              (fun c => !(isNetlocDelim c)))).1 = [] := by
            have hh0 : cutFirst '#' ('#' :: r) = ([], r) :=
              cutFirst_split (List.not_mem_nil '#')
            rw [hr, hh0]
          rw [h3e, cutFirst_of_not_mem (List.not_mem_nil '?')]
    refine ⟨⟨hsch, all_takeWhile _ _, hbr', ?_, ?_, ?_, hstab, ?_, ?_⟩, rfl⟩
    · rcases hjrel with he | he
      · rw [he]; exact hnh4
      · intro hmem
        exact hnh4 (by rw [he]; exact List.mem_append.mpr (Or.inl hmem))
    · rcases hjrel with he | he
      · rw [he]; exact hd4.1
      · intro hmem
        exact hd4.1 (by rw [he]; exact List.mem_append.mpr (Or.inl hmem))
    · rcases hjrel with he | he
      · rw [he]; exact hu4
      · cases hj : joinParams
            (paramsPhase sch (cutFirst '?' (cutFirst '#'
              ((t.filter keepByte).dropWhile (fun c => !(isNetlocDelim c)))).1).1).1
            (paramsPhase sch (cutFirst '?' (cutFirst '#'
              ((t.filter keepByte).dropWhile (fun c => !(isNetlocDelim c)))).1).1).2 with
        | nil => exact Or.inl rfl
        | cons c0 s =>
          right
          have hU4ne : (cutFirst '?' (cutFirst '#'
              ((t.filter keepByte).dropWhile (fun c => !(isNetlocDelim c)))).1).1 ≠ [] := by
            rw [he, hj]; simp
          rcases hu4 with h4e | h4t
          · exact absurd h4e hU4ne
          · have hpres : (cutFirst '?' (cutFirst '#'
                ((t.filter keepByte).dropWhile (fun c => !(isNetlocDelim c)))).1).1.take 1
                = (c0 :: s).take 1 := by
              rw [he, hj]
              exact take_one_append _ (by simp)
            exact hpres.symm.trans h4t
    · rcases hd4.2 with he | ⟨hq, _⟩
      · intro hmem
        refine hd3.1 (by rw [he]
                         exact List.mem_append.mpr (Or.inr (List.mem_cons_of_mem _ hmem)))
      · rw [hq]; simp
    · have hT : ((t.filter keepByte)).all keepByte = true := all_filter_self _ _
      have hNL := all_takeWhile_of_all (p := fun c => !(isNetlocDelim c)) hT
      have hREST := all_dropWhile_of_all (p := fun c => !(isNetlocDelim c)) hT
      have h3c := all_cutFirst (t := '#') hREST
      have h4c := all_cutFirst (t := '?') h3c.1
      have hjoined : (joinParams
          (paramsPhase sch (cutFirst '?' (cutFirst '#'
            ((t.filter keepByte).dropWhile (fun c => !(isNetlocDelim c)))).1).1).1
          (paramsPhase sch (cutFirst '?' (cutFirst '#'
            ((t.filter keepByte).dropWhile (fun c => !(isNetlocDelim c)))).1).1).2).all
            keepByte = true := by
        rcases hjrel with he | he
        · rw [he]; exact h4c.1
        · have hall := h4c.1
          rw [he, List.all_append, Bool.and_eq_true] at hall
          exact hall.1
      simp only [List.all_append, Bool.and_eq_true]
      exact ⟨⟨⟨hNL, hjoined⟩, h4c.2⟩, h3c.2⟩

/-! ## Re-parsing the serialized URL reproduces the components (claim C6) -/

theorem urlunparse6_shape (p : UrlParts) (hnl : p.netloc ≠ []) (hsch : p.scheme ≠ [])
    (hjs : joinParams p.path p.params = []
      ∨ (joinParams p.path p.params).take 1 = ['/']) :
    urlunparse6 p = p.scheme ++ ':' :: '/' :: '/' ::
      (p.netloc ++ ((joinParams p.path p.params
        ++ (if p.query ≠ [] then '?' :: p.query else []))
        ++ (if p.fragment ≠ [] then '#' :: p.fragment else []))) := by
  unfold urlunparse6 urlunsplit joinNetloc
  dsimp only
  rw [if_pos (Or.inl hnl)]
  have hinner : ¬(joinParams p.path p.params ≠ []
      ∧ (joinParams p.path p.params).take 1 ≠ ['/']) := by
    rcases hjs with he | he
    · intro hcon; exact hcon.1 he
    · intro hcon; exact hcon.2 he
  rw [if_neg hinner, if_pos hsch]
  by_cases hq : p.query ≠ [] <;> by_cases hf : p.fragment ≠ [] <;>
    simp [hq, hf, List.append_assoc]

theorem parse_of_unparse (p : UrlParts) (hInv : ParseInv p) (hnl : p.netloc ≠ []) :
    urlparseE (urlunparse6 p) = .ok p := by
  obtain ⟨psch, pnl, ppa, ppr, pq, pf⟩ := p
  obtain ⟨hsch, hnlc, hnlb, hjnh, hjnq, hjs, hstab, hqnh, hclean⟩ := hInv
  dsimp only at hsch hnlc hnlb hjnh hjnq hjs hstab hqnh hclean hnl
  have hschne : psch ≠ [] := by
    rcases hsch with h | h | h | h <;> (rw [h]; decide)
  rw [urlunparse6_shape ⟨psch, pnl, ppa, ppr, pq, pf⟩ hnl hschne hjs]
  dsimp only
  have hQall : (if pq ≠ [] then '?' :: pq else []).all keepByte = true := by
    rw [List.all_append, List.all_append, List.all_append, Bool.and_eq_true, Bool.and_eq_true,
      Bool.and_eq_true] at hclean
    by_cases hq : pq ≠ []
    · rw [if_pos hq, List.all_cons]
      rw [hclean.1.2]
      decide
    · rw [if_neg hq]
      rfl
  have hFall : (if pf ≠ [] then '#' :: pf else []).all keepByte = true := by
    rw [List.all_append, List.all_append, List.all_append, Bool.and_eq_true, Bool.and_eq_true,
      Bool.and_eq_true] at hclean
    by_cases hf : pf ≠ []
    · rw [if_pos hf, List.all_cons]
      rw [hclean.2]
      decide
    · rw [if_neg hf]
      rfl
  have hTall : (pnl ++ ((joinParams ppa ppr ++ (if pq ≠ [] then '?' :: pq else []))
      ++ (if pf ≠ [] then '#' :: pf else []))).all keepByte = true := by
    rw [List.all_append, List.all_append, List.all_append, Bool.and_eq_true, Bool.and_eq_true,
      Bool.and_eq_true] at hclean ⊢
    exact ⟨hclean.1.1.1, ⟨hclean.1.1.2, hQall⟩, hFall⟩
  have hfilterT : ((pnl ++ ((joinParams ppa ppr ++ (if pq ≠ [] then '?' :: pq else []))
      ++ (if pf ≠ [] then '#' :: pf else []))).filter keepByte)
      = pnl ++ ((joinParams ppa ppr ++ (if pq ≠ [] then '?' :: pq else []))
        ++ (if pf ≠ [] then '#' :: pf else [])) :=
    List.filter_eq_self.mpr (List.all_eq_true.mp hTall)
  have hRhead : ((joinParams ppa ppr ++ (if pq ≠ [] then '?' :: pq else []))
        ++ (if pf ≠ [] then '#' :: pf else [])) = []
      ∨ ∃ c r, ((joinParams ppa ppr ++ (if pq ≠ [] then '?' :: pq else []))
        ++ (if pf ≠ [] then '#' :: pf else [])) = c :: r ∧ isNetlocDelim c = true := by
    rcases hjs with hJ0 | hJ1
    · by_cases hq : pq ≠ []
      · right
        refine ⟨'?', pq ++ (if pf ≠ [] then '#' :: pf else []), ?_, by decide⟩
        rw [hJ0, if_pos hq]
        simp
      · by_cases hf : pf ≠ []
        · right
          refine ⟨'#', pf, ?_, by decide⟩
          rw [hJ0, if_neg hq, if_pos hf]
          simp
        · left
          rw [hJ0, if_neg hq, if_neg hf]
          simp
    · cases hJc : joinParams ppa ppr with
      | nil => rw [hJc] at hJ1; simp at hJ1
      | cons c j =>
        have hc : c = '/' := by
          rw [hJc] at hJ1
          simpa using hJ1
        subst hc
        right
        refine ⟨'/', (j ++ (if pq ≠ [] then '?' :: pq else []))
          ++ (if pf ≠ [] then '#' :: pf else []), ?_, by decide⟩
        simp
  have htw : (pnl ++ ((joinParams ppa ppr ++ (if pq ≠ [] then '?' :: pq else []))
      ++ (if pf ≠ [] then '#' :: pf else []))).takeWhile (fun c => !(isNetlocDelim c))
      = pnl := by
    rw [twAppendAll _ (List.all_eq_true.mp hnlc)]
    rcases hRhead with hr | ⟨c, r, hr, hc⟩
    · rw [hr]
      simp
    · rw [hr]
      simp [List.takeWhile_cons, hc]
  have hdw : (pnl ++ ((joinParams ppa ppr ++ (if pq ≠ [] then '?' :: pq else []))
      ++ (if pf ≠ [] then '#' :: pf else []))).dropWhile (fun c => !(isNetlocDelim c))
      = ((joinParams ppa ppr ++ (if pq ≠ [] then '?' :: pq else []))
        ++ (if pf ≠ [] then '#' :: pf else [])) := by
    rw [dwAppendAll _ (List.all_eq_true.mp hnlc)]
    rcases hRhead with hr | ⟨c, r, hr, hc⟩
    · rw [hr]
      simp
    · rw [hr]
      simp [List.dropWhile_cons, hc]
  have hnoHashJQ : '#' ∉ joinParams ppa ppr ++ (if pq ≠ [] then '?' :: pq else []) := by
    intro hmem
    rcases List.mem_append.mp hmem with hm | hm
    · exact hjnh hm
    · by_cases hq : pq ≠ []
      · rw [if_pos hq] at hm
        rcases List.mem_cons.mp hm with hm2 | hm2
        · exact absurd hm2 (by decide)
        · exact hqnh hm2
      · rw [if_neg hq] at hm
        exact List.not_mem_nil _ hm
  have hcut3 : cutFirst '#' ((joinParams ppa ppr ++ (if pq ≠ [] then '?' :: pq else []))
      ++ (if pf ≠ [] then '#' :: pf else []))
      = (joinParams ppa ppr ++ (if pq ≠ [] then '?' :: pq else []), pf) := by
    by_cases hf : pf ≠ []
    · rw [if_pos hf]
      exact cutFirst_split hnoHashJQ
    · rw [if_neg hf, List.append_nil, cutFirst_of_not_mem hnoHashJQ]
      rw [not_not.mp hf]
  have hcut2 : cutFirst '?' (joinParams ppa ppr ++ (if pq ≠ [] then '?' :: pq else []))
      = (joinParams ppa ppr, pq) := by
    by_cases hq : pq ≠ []
    · rw [if_pos hq]
      exact cutFirst_split hjnq
    · rw [if_neg hq, List.append_nil, cutFirst_of_not_mem hjnq]
      rw [not_not.mp hq]
  have hbrT : bracketsMismatch (((pnl ++ ((joinParams ppa ppr
      ++ (if pq ≠ [] then '?' :: pq else []))
      ++ (if pf ≠ [] then '#' :: pf else []))).filter keepByte).takeWhile
        (fun c => !(isNetlocDelim c))) = false := by
    rw [hfilterT, htw]
    exact hnlb
  unfold urlparseE
  rw [urlsplit_scheme_eval psch _ hsch hbrT]
  dsimp only
  rw [hfilterT, htw, hdw]
  have hcut3a : (cutFirst '#' ((joinParams ppa ppr ++ (if pq ≠ [] then '?' :: pq else []))
      ++ (if pf ≠ [] then '#' :: pf else []))).1
      = joinParams ppa ppr ++ (if pq ≠ [] then '?' :: pq else []) := by rw [hcut3]
  have hcut3b : (cutFirst '#' ((joinParams ppa ppr ++ (if pq ≠ [] then '?' :: pq else []))
      ++ (if pf ≠ [] then '#' :: pf else []))).2 = pf := by rw [hcut3]
  have hcut2a : (cutFirst '?' (joinParams ppa ppr
      ++ (if pq ≠ [] then '?' :: pq else []))).1 = joinParams ppa ppr := by rw [hcut2]
  have hcut2b : (cutFirst '?' (joinParams ppa ppr
      ++ (if pq ≠ [] then '?' :: pq else []))).2 = pq := by rw [hcut2]
  rw [hcut3a, hcut3b, hcut2a, hcut2b]
  have hstaba : (paramsPhase psch (joinParams ppa ppr)).1 = ppa := by rw [hstab]
  have hstabb : (paramsPhase psch (joinParams ppa ppr)).2 = ppr := by rw [hstab]
  rw [hstaba, hstabb]

theorem startsWithRecognized_unparse (p : UrlParts) (hInv : ParseInv p)
    (hnl : p.netloc ≠ []) : startsWithRecognized (urlunparse6 p) = true := by
  have hsch := hInv.schemeOk
  have hschne : p.scheme ≠ [] := by
    rcases hsch with h | h | h | h <;> (rw [h]; decide)
  rw [urlunparse6_shape p hnl hschne hInv.joinedSlash]
  unfold startsWithRecognized recognizedSchemeMarks
  simp only [List.any_cons, List.any_nil, Bool.or_eq_true, Bool.or_false]
  rcases hsch with h | h | h | h <;> rw [h]
  · exact Or.inl (startsWithL_self (pyStr ("http://")) _)
  · exact Or.inr (Or.inl (startsWithL_self (pyStr ("https://")) _))
  · exact Or.inr (Or.inr (Or.inl (startsWithL_self (pyStr ("ftp://")) _)))
  · exact Or.inr (Or.inr (Or.inr (startsWithL_self (pyStr ("ftps://")) _)))

/-- Counterexample to C6 as stated: the input of the claimed class
`"http://a.com/p #"` (recognized scheme, non-empty netloc) normalizes to
`"http://a.com/p "` — `urlunparse` drops the empty fragment but keeps the
space that preceded `#` — and normalizing that output strips the now-trailing
space and yields the different string `"http://a.com/p"`. -/
theorem c6_counterexample :
    startsWithRecognized (pyStrip (pyStr ("http://a.com/p #"))) = true
    ∧ (∃ q, urlparseE (pyStrip (pyStr ("http://a.com/p #"))) = .ok q ∧ q.netloc ≠ [])
    ∧ autocomplete_url (pyStr ("http://a.com/p #")) = .ok (pyStr ("http://a.com/p "))
    ∧ autocomplete_url (pyStr ("http://a.com/p ")) = .ok (pyStr ("http://a.com/p"))
    ∧ pyStr ("http://a.com/p ") ≠ pyStr ("http://a.com/p") := by
  exact ⟨by decide,
    ⟨⟨pyStr ("http"), pyStr ("a.com"), pyStr ("/p "), [], [], []⟩, by decide, by decide⟩,
    by decide, by decide, by decide⟩

/-- C6 (amended): normalization is idempotent on recognized-scheme inputs that
parse to a non-empty netloc, PROVIDED the serialized URL carries no leading or
trailing whitespace (the original claim omits this proviso, and
`c6_counterexample` shows it is needed): one application returns the
re-serialized parse result, and a second application returns it unchanged. -/
theorem c6_amended (s : PyStr) (p : UrlParts)
    (hrec : startsWithRecognized (pyStrip s) = true)
    (hparse : urlparseE (pyStrip s) = .ok p)
    (hnl : p.netloc ≠ [])
    (hws : pyStrip (urlunparse6 p) = urlunparse6 p) :
    autocomplete_url s = .ok (urlunparse6 p)
    ∧ autocomplete_url (urlunparse6 p) = .ok (urlunparse6 p) := by
  obtain ⟨sch, t, hschn, hdec⟩ := recognized_decomp hrec
  have hparse0 := hparse
  rw [hdec] at hparse0
  have hInvp := parseInv_of_parse sch t p hschn hparse0
  have hInv := hInvp.1
  have hne1 : pyStrip s ≠ [] := by
    intro h0
    rw [h0] at hrec
    exact absurd hrec (by decide)
  have h1 : autocomplete_url s = .ok (urlunparse6 p) := by
    simp only [autocomplete_url]
    rw [if_neg hne1, if_pos hrec]
    unfold schemeBranch
    rw [hparse]
    dsimp only
    rw [if_pos hnl]
  have hrec2 : startsWithRecognized (urlunparse6 p) = true :=
    startsWithRecognized_unparse p hInv hnl
  have hne2 : urlunparse6 p ≠ [] := by
    intro h0
    rw [h0] at hrec2
    exact absurd hrec2 (by decide)
  have hparse2 : urlparseE (urlunparse6 p) = .ok p := parse_of_unparse p hInv hnl
  have h2 : autocomplete_url (urlunparse6 p) = .ok (urlunparse6 p) := by
    simp only [autocomplete_url, hws]
    rw [if_neg hne2, if_pos hrec2]
    unfold schemeBranch
    rw [hparse2]
    dsimp only
    rw [if_pos hnl]
  exact ⟨h1, h2⟩

theorem c6_witness :
    autocomplete_url (pyStr ("http://example.com/path?q=1"))
      = .ok (urlunparse6 ⟨pyStr ("http"), pyStr ("example.com"), pyStr ("/path"),
          [], pyStr ("q=1"), []⟩)
    ∧ autocomplete_url (urlunparse6 ⟨pyStr ("http"), pyStr ("example.com"),
          pyStr ("/path"), [], pyStr ("q=1"), []⟩)
      = .ok (urlunparse6 ⟨pyStr ("http"), pyStr ("example.com"), pyStr ("/path"),
          [], pyStr ("q=1"), []⟩) :=
  c6_amended (pyStr ("http://example.com/path?q=1"))
    ⟨pyStr ("http"), pyStr ("example.com"), pyStr ("/path"), [], pyStr ("q=1"), []⟩
    (by decide) (by decide) (by decide) (by decide)
